import Mathlib

set_option maxRecDepth 16000

/-!
# Verification of the mybgg faceted filter/search/sort engine

A shallow embedding of the client-side engine of the mybgg repository
(the code of `updateResults` / `filterGames` / `parsePlayerCount` /
`getFiltersFromURL` / `updateURLWithFilters` / `updateAllFilterCounts` /
`applyFiltersAndSort` / `loadAllGames` / `goToPage`), together with proofs
about the natural-language specification of that engine.

Modelling conventions:
* JavaScript strings are modelled as `String` / `List Char` (ASCII-faithful;
  Unicode-specific behaviour of `toLowerCase` / `trim` outside ASCII is not
  modelled).
* JavaScript numbers are modelled as `ℤ` (or `ℚ` for the float-valued
  `weight` / `rating` fields).  `NaN` results of `Number(...)` / `parseInt`
  are modelled as `none : Option ℤ`; the `Infinity` upper bound of an open
  player range is modelled as `none` in the `max` field of `PRange`.
  Fractional or exotic numeric literals (`"1.5"`, `"0x10"`, `"Infinity"`,
  `"NaN"` as input text) are not modelled: on them the model returns `NaN`.
* `Array.prototype.sort` (guaranteed stable since ES2019) is modelled by a
  structurally recursive insertion sort `isort`; a stable sort by a total
  preorder has a unique result, so any stable implementation is a faithful
  model.
* `URLSearchParams` is modelled as an ordered list of key/value pairs with
  first-match lookup (its percent-encoding round-trips losslessly and is
  therefore elided).
* `JSON.parse` is modelled on the fragment actually stored in the dataset
  sub-fields: flat arrays of comma-free, quote-free strings; every other
  input is a parse failure.
-/

namespace MyBGG

/-! ## JS primitive models: characters, digits, numbers -/

/-- Whitespace for the purposes of JS `String.prototype.trim` (ASCII part). -/
def isJsSpace (c : Char) : Bool :=
  c = ' ' || c = '\t' || c = '\n' || c = '\r'

/-- Numeric value of a decimal digit character. -/
def digitVal (c : Char) : ℕ := c.toNat - 48

/-- Decimal digit test (the `\d` of the source regex, and the digits
accepted by `parseInt` / `Number`). -/
def isDigitC (c : Char) : Bool := 48 ≤ c.toNat && c.toNat ≤ 57

/-- The decimal digit character for a value `0 ≤ d ≤ 9`. -/
def digitChar : ℕ → Char
  | 0 => '0' | 1 => '1' | 2 => '2' | 3 => '3' | 4 => '4'
  | 5 => '5' | 6 => '6' | 7 => '7' | 8 => '8' | _ => '9'

/-- Value of a list of decimal digit characters, most significant first. -/
def valDigits (l : List Char) : ℕ :=
  l.foldl (fun a c => 10 * a + digitVal c) 0

/-- Canonical decimal numeral, written with explicit fuel so that the
definition is structurally recursive (hence kernel-reducible).  With
`fuel > n` this is the usual most-significant-first numeral. -/
def natCharsAux : ℕ → ℕ → List Char
  | 0, _ => []
  | fuel + 1, n =>
    if n < 10 then [digitChar n]
    else natCharsAux fuel (n / 10) ++ [digitChar (n % 10)]

/-- Canonical decimal numeral of a natural number (JS `String(n)` for `n ≥ 0`). -/
def natChars (n : ℕ) : List Char := natCharsAux (n + 1) n

/-- JS `String(i)` for an integral number `i`. -/
def intChars (i : ℤ) : List Char :=
  if i < 0 then '-' :: natChars i.natAbs else natChars i.toNat

/-- JS `String.prototype.trim` on a character list. -/
def trimChars (l : List Char) : List Char :=
  ((l.dropWhile isJsSpace).reverse.dropWhile isJsSpace).reverse

/-- JS `parseInt(s, 10)`: skip leading whitespace, optional sign, then the
longest digit prefix; `NaN` (`none`) if that prefix is empty. -/
def parseIntChars (l : List Char) : Option ℤ :=
  let l1 := l.dropWhile isJsSpace
  let sign : ℤ := if l1.headD ' ' = '-' then -1 else 1
  let l2 := if l1.headD ' ' = '-' ∨ l1.headD ' ' = '+' then l1.tail else l1
  let ds := l2.takeWhile isDigitC
  if ds = [] then none else some (sign * valDigits ds)

/-- JS `Number(s)` restricted to integral literals: trimmed empty string is
`0`, an optional sign followed by digits is that integer, anything else is
`NaN` (`none`). -/
def jsNumber (l : List Char) : Option ℤ :=
  let t := trimChars l
  if t = [] then some 0
  else
    let sign : ℤ := if t.headD ' ' = '-' then -1 else 1
    let t2 := if t.headD ' ' = '-' ∨ t.headD ' ' = '+' then t.tail else t
    if t2 ≠ [] ∧ t2.all isDigitC then some (sign * valDigits t2)
    else none

/-- JS `String.prototype.split(sep)` for a one-character separator:
`"a-b".split("-") = ["a","b"]`, `"".split("-") = [""]`. -/
def jsSplit (sep : Char) : List Char → List (List Char)
  | [] => [[]]
  | c :: r =>
    if c = sep then [] :: jsSplit sep r
    else
      match jsSplit sep r with
      | h :: t => (c :: h) :: t
      | [] => [[c]]

/-- JS `Array.prototype.join(",")` on a list of character lists. -/
def joinC : List (List Char) → List Char
  | [] => []
  | [x] => x
  | x :: xs => x ++ ',' :: joinC xs

/-! ## The player-count spec parser (`parsePlayerCount`) -/

/-- The range produced by `parsePlayerCount`: `max = none` models the
JavaScript `Infinity` upper bound of an open-ended range. -/
structure PRange where
  min : ℤ
  max : Option ℤ
  isOpen : Bool
deriving DecidableEq, Repr

/-- The sentinel `{min: 0, max: 0, open: false}` returned for unparseable
player-count specs. -/
def sentinelRange : PRange := ⟨0, some 0, false⟩

/-- The anchored regex `^(\d+)[–-](\d+)$` of `parsePlayerCount`: a nonempty
digit group, a hyphen or en-dash, a nonempty digit group. -/
def rangeSplit (l : List Char) : Option (List Char × List Char) :=
  let p := l.takeWhile isDigitC
  match l.dropWhile isDigitC with
  | c :: q =>
    if (c = '-' ∨ c = '–') ∧ p ≠ [] ∧ q ≠ [] ∧ q.all isDigitC then
      some (p, q)
    else none
  | [] => none

/-- The branches of `parsePlayerCount` that follow the (possibly failed)
`endsWith('+')` branch: the range regex, then the canonical-integer check,
then the sentinel. -/
def parsePCRest (t : List Char) : PRange :=
  match rangeSplit t with
  | some (p, q) => ⟨(parseIntChars p).getD 0, some ((parseIntChars q).getD 0), false⟩
  | none =>
    match parseIntChars t with
    | some n => if intChars n = t then ⟨n, some n, false⟩ else sentinelRange
    | none => sentinelRange

/-- `parsePlayerCount` on the trimmed character list: first the `'+'`
open-range branch (guarded by `String(min) === numPart`), then `parsePCRest`. -/
def parsePCTrimmed (t : List Char) : PRange :=
  if t.getLast? = some '+' then
    match parseIntChars t.dropLast with
    | some m => if intChars m = t.dropLast then ⟨m, none, true⟩ else parsePCRest t
    | none => parsePCRest t
  else parsePCRest t

/-- `parsePlayerCount(countStr)` from the source: falsy input gives the
sentinel, otherwise the input is trimmed and the three grammar branches are
tried in order.  (The JS corner case `parse("NaN+")`, which the source maps
to an open range because `String(NaN) === "NaN"`, is not modelled: the model
treats `"NaN"` as a failed `parseInt`.) -/
def parsePlayerCount (s : String) : PRange :=
  if s.data = [] then sentinelRange else parsePCTrimmed (trimChars s.data)

/-- `t ≤ max` against a possibly-infinite upper bound (JS `t <= Infinity`). -/
def jsLeMax (t : ℤ) : Option ℤ → Bool
  | none => true
  | some m => t ≤ m

/-- The player-range membership test used by `filterGames`:
`parsed.open ? target === parsed.min : parsed.min <= target <= parsed.max`.
This is also the containment relation of the specification (`n ∈ [min,max]`,
or `n == min` when open). -/
def rangeMatches (r : PRange) (t : ℤ) : Bool :=
  if r.isOpen then t = r.min else r.min ≤ t && jsLeMax t r.max

/-! ## The data model -/

/-- One catalog item, as produced by `loadAllGames` and consumed by
`filterGames` / `applyFiltersAndSort`.  `rank = 0` models an absent rank,
`rating = 0` an unrated item (both are falsy in the source).  The float
fields `weight` and `rating` are modelled as rationals. -/
structure Game where
  id : ℕ := 0
  name : String := ""
  description : String := ""
  categories : List String := []
  mechanics : List String := []
  players : List (String × String) := []
  weight : ℚ := 0
  playing_time : String := ""
  min_age : ℕ := 0
  rank : ℕ := 0
  usersrated : ℕ := 0
  numowned : ℕ := 0
  rating : ℚ := 0
  numplays : ℕ := 0
  previous_players : List String := []
deriving DecidableEq, Repr

/-- A `{min, max}` bound pair as produced by `getFiltersFromURL` for the
`min_age` / `numplays` facets; `none` models a `NaN` bound. -/
structure NumRange where
  min : Option ℤ
  max : Option ℤ
deriving DecidableEq, Repr

/-- The filter-state object threaded through `filterGames`,
`applyFiltersAndSort`, `updateURLWithFilters` and `getFiltersFromURL`.
`selectedPlayerFilter` is the raw radio-button token (`"any"`, `"2"`,
`"2-best"`, …); `selectedMinAge` / `selectedNumPlays` are `null` (`none`)
or a bound pair. -/
structure FilterState where
  query : String := ""
  selectedCategories : List String := []
  selectedMechanics : List String := []
  selectedPlayerFilter : String := "any"
  selectedWeight : List String := []
  selectedPlayingTime : List String := []
  selectedPreviousPlayers : List String := []
  selectedMinAge : Option NumRange := none
  selectedNumPlays : Option NumRange := none
  sortBy : String := "name"
  page : ℤ := 1
deriving DecidableEq, Repr

/-- The default state: what `getFiltersFromURL` produces for an empty query
string. -/
def defaultFilters : FilterState := {}

/-! ## The filter engine (`filterGames`) -/

/-- `getComplexityName(score)` with thresholds `[1.5, 2.5, 3.5, 4.5]` and
names `['Light', 'Light Medium', 'Medium', 'Medium Heavy', 'Heavy']`
(the `NaN` guard of the source is subsumed by the rational model). -/
def getComplexityName (score : ℚ) : String :=
  if score ≤ 0 then ""
  else if score < 3 / 2 then "Light"
  else if score < 5 / 2 then "Light Medium"
  else if score < 7 / 2 then "Medium"
  else if score < 9 / 2 then "Medium Heavy"
  else "Heavy"

/-- Lowercased character list of a string (JS `s.toLowerCase()`, ASCII). -/
def toLowerChars (s : String) : List Char := s.data.map Char.toLower

/-- Helper for `containsSub`: does `needle` occur starting at some position
of the remaining haystack? -/
def containsSubAux (needle : List Char) : List Char → Bool
  | [] => needle.isEmpty
  | c :: r => needle.isPrefixOf (c :: r) || containsSubAux needle r

/-- JS `haystack.includes(needle)` on character lists. -/
def containsSub (hay : List Char) (needle : List Char) : Bool :=
  containsSubAux needle hay

/-- The player-filter block of `filterGames` (source lines 1113–1137): a
token other than `"any"` is split at `"-"`; the part before the first dash
is converted with `Number`; if that is `NaN` the constraint is skipped,
otherwise some `(count, type)` pair must have a truthy `count`, a type other
than `"not recommended"`, the required type when one was requested, and a
parsed range containing the target. -/
def playersGuard (token : String) (g : Game) : Bool :=
  if token ≠ "" ∧ token ≠ "any" then
    let parts := jsSplit '-' token.data
    let requiredType : Option (List Char) :=
      if 1 < parts.length then some (parts.getD 1 []) else none
    match jsNumber (parts.headD []) with
    | none => true
    | some target =>
      g.players.any fun pr =>
        if pr.1 = "" ∨ pr.2 = "not recommended" then false
        else if (match requiredType with
                 | some rt => decide (rt ≠ []) && decide (pr.2.data ≠ rt)
                 | none => false) then false
        else rangeMatches (parsePlayerCount pr.1) target
  else true

/-- `a < b` against a possibly-`NaN` bound (JS comparison with `NaN` is
false). -/
def jsLtBound (a : ℤ) : Option ℤ → Bool
  | none => false
  | some m => a < m

/-- `a > b` against a possibly-`NaN` bound. -/
def jsGtBound (a : ℤ) : Option ℤ → Bool
  | none => false
  | some m => m < a

/-- The per-item predicate of `filterGames`: the conjunction of the eight
guard clauses of the source, in source order. -/
def gamePasses (f : FilterState) (g : Game) : Bool :=
  (f.query = "" ∨ containsSub (toLowerChars g.name) f.query.data
    ∨ containsSub (toLowerChars g.description) f.query.data) &&
  (f.selectedCategories = [] ∨ f.selectedCategories.any (g.categories.contains ·)) &&
  (f.selectedMechanics = [] ∨ f.selectedMechanics.any (g.mechanics.contains ·)) &&
  playersGuard f.selectedPlayerFilter g &&
  (f.selectedWeight = [] ∨
    (getComplexityName g.weight ≠ "" ∧ f.selectedWeight.contains (getComplexityName g.weight))) &&
  (f.selectedPlayingTime = [] ∨ f.selectedPlayingTime.contains g.playing_time) &&
  (f.selectedPreviousPlayers = [] ∨ f.selectedPreviousPlayers.any (g.previous_players.contains ·)) &&
  (match f.selectedMinAge with
   | none => true
   | some r => !(jsLtBound g.min_age r.min || jsGtBound g.min_age r.max)) &&
  (match f.selectedNumPlays with
   | none => true
   | some r => !(jsLtBound g.numplays r.min || jsGtBound g.numplays r.max))

/-- `filterGames(gamesToFilter, filters)`: a pure `Array.prototype.filter`
over the per-item predicate. -/
def filterGames (gamesToFilter : List Game) (filters : FilterState) : List Game :=
  gamesToFilter.filter (gamePasses filters)

/-! ## The sort engine (`applyFiltersAndSort`) -/

/-- Lexicographic comparison of character lists by code point
(`a ≤ b` in the shortlex-free dictionary sense). -/
def lexLe : List Char → List Char → Bool
  | [], _ => true
  | _ :: _, [] => false
  | a :: as, b :: bs =>
    if a.toNat < b.toNat then true
    else if b.toNat < a.toNat then false
    else lexLe as bs

/-- Insert into a sorted list, before the first element `y` with `le x y`
(the placement that makes the overall sort stable). -/
def insertSorted (le : α → α → Bool) (x : α) : List α → List α
  | [] => [x]
  | y :: ys => if le x y then x :: y :: ys else y :: insertSorted le x ys

/-- Stable sort by a boolean `≤` test.  Models the (ES2019-stable)
`Array.prototype.sort(comparator)` of the source: `le a b` stands for
`comparator(a, b) <= 0`. -/
def isort (le : α → α → Bool) : List α → List α
  | [] => []
  | x :: xs => insertSorted le x (isort le xs)

/-- The rank sort key: `a.rank || 999999` (an absent rank, stored as the
falsy `0`, becomes `999999`). -/
def rankKey (g : Game) : ℕ :=
  if g.rank = 0 then 999999 else g.rank

/-- The `comparator(a,b) <= 0` relation of the `switch (filters.sortBy)`
comparator of `applyFiltersAndSort`.  `localeCompare` is modelled as
case-folded lexicographic comparison; `x || 0` is the identity on the
numeric fields; the `default` branch returns the constant comparator `0`,
i.e. the always-true relation. -/
def sortLe (sortBy : String) : Game → Game → Bool :=
  match sortBy with
  | "name" => fun a b => lexLe (toLowerChars a.name) (toLowerChars b.name)
  | "rank" => fun a b => rankKey a ≤ rankKey b
  | "rating" => fun a b => b.rating ≤ a.rating
  | "numowned" => fun a b => b.numowned ≤ a.numowned
  | "numrated" => fun a b => b.usersrated ≤ a.usersrated
  | _ => fun _ _ => true

/-- The sort step of `applyFiltersAndSort`: a stable sort of the filtered
list by the selected comparator. -/
def sortGames (l : List Game) (sortBy : String) : List Game :=
  isort (sortLe sortBy) l

/-! ## The paginator (`updateResults` / `goToPage`) -/

/-- `GAMES_PER_PAGE` from the source configuration. -/
def GAMES_PER_PAGE : ℤ := 48

/-- Index resolution of ECMAScript `Array.prototype.slice`: a negative index
counts from the end (clamped at 0), a non-negative one is clamped at the
length. -/
def clampIndex (len : ℕ) (i : ℤ) : ℕ :=
  if i < 0 then ((len : ℤ) + i).toNat else min i.toNat len

/-- ECMAScript `Array.prototype.slice(start, end)` with signed indices. -/
def jsSlice (l : List α) (s e : ℤ) : List α :=
  (l.drop (clampIndex l.length s)).take (clampIndex l.length e - clampIndex l.length s)

/-- The slice taken by `updateResults`:
`startIdx = (currentPage - 1) * GAMES_PER_PAGE`, `endIdx = startIdx +
GAMES_PER_PAGE`, `filteredGames.slice(startIdx, endIdx)` — with no clamping
of the page number anywhere (`goToPage` assigns `currentPage = page`
unchecked). -/
def paginate (l : List α) (page : ℤ) : List α :=
  jsSlice l ((page - 1) * GAMES_PER_PAGE) ((page - 1) * GAMES_PER_PAGE + GAMES_PER_PAGE)

/-- The full view pipeline for a state: filter, stable-sort, paginate
(`applyFiltersAndSort` followed by `updateResults`). -/
def view (items : List Game) (f : FilterState) : List Game :=
  paginate (sortGames (filterGames items f) f.sortBy) f.page

/-! ## The URL-state codec (`updateURLWithFilters` / `getFiltersFromURL`) -/

/-- The ordered parameter list of a query string (the `URLSearchParams`
multimap; percent-encoding round-trips losslessly and is elided). -/
abbrev Params := List (String × String)

/-- `params.get(key)`: the first value stored under `key`, or `null`. -/
def getParam (ps : Params) (k : String) : Option String :=
  (ps.find? fun p => p.1 = k).map (·.2)

/-- JS `String(x)` for a possibly-`NaN` number (template-literal
interpolation writes `"NaN"` for `NaN`). -/
def numToChars : Option ℤ → List Char
  | none => "NaN".data
  | some i => intChars i

/-- The serialized `"min-max"` text of a `{min, max}` range. -/
def rangeToString (r : NumRange) : String :=
  ⟨numToChars r.min ++ '-' :: numToChars r.max⟩

/-- `updateURLWithFilters(filters)`: each key is set only when the field is
truthy / non-default, in source order. -/
def encodeFilters (f : FilterState) : Params :=
  (if f.query ≠ "" then [("q", f.query)] else []) ++
  (if f.selectedCategories ≠ [] then
    [("categories", ⟨joinC (f.selectedCategories.map String.data)⟩)] else []) ++
  (if f.selectedMechanics ≠ [] then
    [("mechanics", ⟨joinC (f.selectedMechanics.map String.data)⟩)] else []) ++
  (if f.selectedPlayerFilter ≠ "" ∧ f.selectedPlayerFilter ≠ "any" then
    [("players", f.selectedPlayerFilter)] else []) ++
  (if f.selectedWeight ≠ [] then
    [("weight", ⟨joinC (f.selectedWeight.map String.data)⟩)] else []) ++
  (if f.selectedPlayingTime ≠ [] then
    [("playing_time", ⟨joinC (f.selectedPlayingTime.map String.data)⟩)] else []) ++
  (if f.selectedPreviousPlayers ≠ [] then
    [("previous_players", ⟨joinC (f.selectedPreviousPlayers.map String.data)⟩)] else []) ++
  (match f.selectedMinAge with
   | some r => [("min_age", rangeToString r)]
   | none => []) ++
  (match f.selectedNumPlays with
   | some r => [("numplays", rangeToString r)]
   | none => []) ++
  (if f.sortBy ≠ "" ∧ f.sortBy ≠ "name" then [("sort", f.sortBy)] else []) ++
  (if 1 < f.page then [("page", ⟨intChars f.page⟩)] else [])

/-- JS `params.get(k) || dflt` for string-valued parameters: `null` and the
empty string both fall back to the default. -/
def jsOrStr (o : Option String) (dflt : String) : String :=
  match o with
  | none => dflt
  | some v => if v = "" then dflt else v

/-- `params.get(k)?.split(',').filter(Boolean) || []` for the multi-select
groups. -/
def splitList (o : Option String) : List String :=
  match o with
  | none => []
  | some v => ((jsSplit ',' v.data).filter (· ≠ [])).map String.mk

/-- `{ min: Number(v.split('-')[0]), max: Number(v.split('-')[1]) }` — an
out-of-range index yields `undefined`, and `Number(undefined)` is `NaN`. -/
def parseRangeParam (v : String) : NumRange :=
  let segs := jsSplit '-' v.data
  { min := jsNumber (segs.headD [])
    max := match segs.drop 1 with
           | [] => none
           | s :: _ => jsNumber s }

/-- `minAgeParam ? {...} : null`: a missing or empty (falsy) parameter gives
`null`, anything else is split into a bound pair. -/
def decodeRange (o : Option String) : Option NumRange :=
  match o with
  | none => none
  | some v => if v = "" then none else some (parseRangeParam v)

/-- `Number(params.get('page')) || 1`: a missing parameter gives
`Number(null) = 0`, and both `0` and `NaN` are falsy. -/
def decodePage (o : Option String) : ℤ :=
  match (match o with
         | none => some (0 : ℤ)
         | some v => jsNumber v.data) with
  | none => 1
  | some n => if n = 0 then 1 else n

/-- `getFiltersFromURL()`: the total decoder from a parameter list to a
filter state. -/
def decodeFilters (ps : Params) : FilterState :=
  { query := jsOrStr (getParam ps "q") ""
    selectedCategories := splitList (getParam ps "categories")
    selectedMechanics := splitList (getParam ps "mechanics")
    selectedPlayerFilter := jsOrStr (getParam ps "players") "any"
    selectedWeight := splitList (getParam ps "weight")
    selectedPlayingTime := splitList (getParam ps "playing_time")
    selectedPreviousPlayers := splitList (getParam ps "previous_players")
    selectedMinAge := decodeRange (getParam ps "min_age")
    selectedNumPlays := decodeRange (getParam ps "numplays")
    sortBy := jsOrStr (getParam ps "sort") "name"
    page := decodePage (getParam ps "page") }

/-! ## The facet index (`updateAllFilterCounts`) -/

/-- The radio token of the specification's `Main(n)`: the decimal numeral
(`setupPlayersFilter` emits `p.toString()`). -/
def mainToken (n : ℕ) : String := ⟨natChars n⟩

/-- The radio token of the specification's `Sub(n, tag)`: `"n-tag"`
(`setupPlayersFilter` emits the interpolation of `p` and the
recommendation type). -/
def subToken (n : ℕ) (tag : String) : String := ⟨natChars n ++ '-' :: tag.data⟩

/-- The specification's `Main(n)` pass condition: some `(spec, tag)` pair has
`tag ≠ "not recommended"` and `parse(spec)` contains `n`. -/
def claimMainPass (n : ℤ) (g : Game) : Bool :=
  g.players.any fun pr =>
    pr.2 ≠ "not recommended" && rangeMatches (parsePlayerCount pr.1) n

/-- The specification's `Sub(n, tag)` pass condition: additionally the
pair's tag equals the requested tag exactly. -/
def claimSubPass (n : ℤ) (tag : String) (g : Game) : Bool :=
  g.players.any fun pr =>
    pr.2 ≠ "not recommended" && pr.2 = tag && rangeMatches (parsePlayerCount pr.1) n

/-- A candidate value of one of the eight facet groups, carrying the payload
of the DOM radio / checkbox value that `updateAllFilterCounts` iterates: a
string for the set-valued groups, the level-0 numeral `"n"` or the level-1
`"n-tag"` of the hierarchical player facet, a `[min, max]` bucket for the
two ranged groups. -/
inductive FacetVal where
  | category (s : String)
  | mechanic (s : String)
  | player (n : ℕ)
  | playerSub (n : ℕ) (tag : String)
  | weightName (s : String)
  | playingTime (s : String)
  | prevPlayer (s : String)
  | ageBucket (lo hi : ℤ)
  | playsBucket (lo hi : ℤ)
deriving DecidableEq, Repr

/-- `{...filters, selectedX: cleared}`: the state with the facet's own
constraint cleared, exactly as spread in `updateAllFilterCounts`.  Both
levels of the player facet are counted against the state with the whole
player constraint cleared. -/
def clearGroup (v : FacetVal) (f : FilterState) : FilterState :=
  match v with
  | .category _ => { f with selectedCategories := [] }
  | .mechanic _ => { f with selectedMechanics := [] }
  | .player _ => { f with selectedPlayerFilter := "any" }
  | .playerSub _ _ => { f with selectedPlayerFilter := "any" }
  | .weightName _ => { f with selectedWeight := [] }
  | .playingTime _ => { f with selectedPlayingTime := [] }
  | .prevPlayer _ => { f with selectedPreviousPlayers := [] }
  | .ageBucket _ _ => { f with selectedMinAge := none }
  | .playsBucket _ _ => { f with selectedNumPlays := none }

/-- The per-item test of the player-facet counting loop (source lines
1260–1278) for an arbitrary radio value token:
`targetPlayers = Number(value)`, and a pair counts when its tag is not
`"not recommended"` and `targetPlayers >= min && targetPlayers <= max`.
When the token is a level-1 `"n-tag"` value, `Number` yields `NaN` and both
comparisons are false for every pair. -/
def playerCountMem (value : String) (g : Game) : Bool :=
  match jsNumber value.data with
  | none =>
    g.players.any fun pr =>
      pr.2 ≠ "not recommended" && (false && false)
  | some t =>
    g.players.any fun pr =>
      pr.2 ≠ "not recommended" &&
      ((parsePlayerCount pr.1).min ≤ t && jsLeMax t (parsePlayerCount pr.1).max)

/-- The per-item test by which `updateAllFilterCounts` increments a facet
value's count: set membership for the set-valued groups, the token-driven
`Number`/min/max test for both levels of the player facet, a truthy
name/time equal to the value for weight and playing time, and bucket
containment for the ranged groups. -/
def countMem (v : FacetVal) (g : Game) : Bool :=
  match v with
  | .category s => g.categories.contains s
  | .mechanic s => g.mechanics.contains s
  | .player n => playerCountMem (mainToken n) g
  | .playerSub n tag => playerCountMem (subToken n tag) g
  | .weightName s =>
    g.weight ≠ 0 && (getComplexityName g.weight ≠ "" && getComplexityName g.weight = s)
  | .playingTime s => g.playing_time ≠ "" && g.playing_time = s
  | .prevPlayer s => g.previous_players.contains s
  | .ageBucket lo hi => lo ≤ (g.min_age : ℤ) && (g.min_age : ℤ) ≤ hi
  | .playsBucket lo hi => lo ≤ (g.numplays : ℤ) && (g.numplays : ℤ) ≤ hi

/-- The claim's notion of "the item's G-field contains the value": identical
to the counting test except on the player facet, where `Main(n)` containment
is the specified tag-filtered range containment and `Sub(n, tag)`
containment additionally requires the exact tag (the `(n, tag)` combination
the item exposes). -/
def fieldContains (v : FacetVal) (g : Game) : Bool :=
  match v with
  | .category s => g.categories.contains s
  | .mechanic s => g.mechanics.contains s
  | .player n => claimMainPass (n : ℤ) g
  | .playerSub n tag => claimSubPass (n : ℤ) tag g
  | .weightName s =>
    g.weight ≠ 0 && (getComplexityName g.weight ≠ "" && getComplexityName g.weight = s)
  | .playingTime s => g.playing_time ≠ "" && g.playing_time = s
  | .prevPlayer s => g.previous_players.contains s
  | .ageBucket lo hi => lo ≤ (g.min_age : ℤ) && (g.min_age : ℤ) ≤ hi
  | .playsBucket lo hi => lo ≤ (g.numplays : ℤ) && (g.numplays : ℤ) ≤ hi

/-- The cross-filter count of one facet value: filter the whole collection
with the group's own constraint cleared, then tally the counting test. -/
def facetCount (v : FacetVal) (items : List Game) (f : FilterState) : ℕ :=
  (filterGames items (clearGroup v f)).countP (countMem v)

/-! ## The dataset loader (`loadAllGames`) -/

/-- One raw database row: the six serialized sub-fields as nullable text. -/
structure RawRow where
  id : ℕ := 0
  categories : Option String := none
  mechanics : Option String := none
  players : Option String := none
  tags : Option String := none
  previous_players : Option String := none
  expansions : Option String := none
deriving DecidableEq, Repr

/-- A sub-field after the load step: either the parsed array, or — when the
enclosing `try` block was aborted by an earlier `JSON.parse` throw — the
untouched raw column value. -/
inductive FieldVal where
  | parsed (v : List String)
  | raw (s : Option String)
deriving DecidableEq, Repr

/-- A loaded item's six sub-fields (the other columns are copied verbatim
and are irrelevant to the load-error behaviour). -/
structure LoadedRow where
  id : ℕ
  categories : FieldVal
  mechanics : FieldVal
  players : FieldVal
  tags : FieldVal
  previous_players : FieldVal
  expansions : FieldVal
deriving DecidableEq, Repr

/-- `JSON.parse` restricted to the fragment stored in the sub-fields: a flat
array of strings that contain no quote, backslash or comma.  Anything else
fails (`none` models a thrown `SyntaxError`). -/
def jsonParseStrings (s : String) : Option (List String) :=
  match trimChars s.data with
  | '[' :: rest =>
    match rest.getLast? with
    | some ']' =>
      let inner := rest.dropLast
      if trimChars inner = [] then some []
      else
        ((jsSplit ',' inner).mapM fun seg =>
          match trimChars seg with
          | '"' :: body =>
            match body.getLast? with
            | some '"' =>
              let mid := body.dropLast
              if mid.all (fun c => c ≠ '"' ∧ c ≠ '\\' ∧ c ≠ ',') then
                some (String.mk mid)
              else none
            | _ => none
          | _ => none)
    | _ => none
  | _ => none

/-- `JSON.parse(row.f || '[]')`: a `null` column defaults to the empty
array before parsing. -/
def parseField (o : Option String) : Option (List String) :=
  jsonParseStrings (match o with | none => "[]" | some s => s)

/-- The `try { ... } catch` body of `loadAllGames` for one row: the six
`JSON.parse` assignments run in source order; the first throw aborts the
block, leaving the failing field and every later field with its raw column
value.  The boolean records whether `console.warn` fired. -/
def loadRow (r : RawRow) : LoadedRow × Bool :=
  match parseField r.categories with
  | none => (⟨r.id, .raw r.categories, .raw r.mechanics, .raw r.players,
              .raw r.tags, .raw r.previous_players, .raw r.expansions⟩, true)
  | some cs =>
    match parseField r.mechanics with
    | none => (⟨r.id, .parsed cs, .raw r.mechanics, .raw r.players,
                .raw r.tags, .raw r.previous_players, .raw r.expansions⟩, true)
    | some ms =>
      match parseField r.players with
      | none => (⟨r.id, .parsed cs, .parsed ms, .raw r.players,
                  .raw r.tags, .raw r.previous_players, .raw r.expansions⟩, true)
      | some pl =>
        match parseField r.tags with
        | none => (⟨r.id, .parsed cs, .parsed ms, .parsed pl,
                    .raw r.tags, .raw r.previous_players, .raw r.expansions⟩, true)
        | some ts =>
          match parseField r.previous_players with
          | none => (⟨r.id, .parsed cs, .parsed ms, .parsed pl,
                      .parsed ts, .raw r.previous_players, .raw r.expansions⟩, true)
          | some pp =>
            match parseField r.expansions with
            | none => (⟨r.id, .parsed cs, .parsed ms, .parsed pl,
                        .parsed ts, .parsed pp, .raw r.expansions⟩, true)
            | some ex =>
              (⟨r.id, .parsed cs, .parsed ms, .parsed pl,
                .parsed ts, .parsed pp, .parsed ex⟩, false)

/-- `loadAllGames`: every row is pushed onto `allGames` whether or not its
sub-fields parsed — the `catch` only warns. -/
def loadAllGames (rows : List RawRow) : List LoadedRow :=
  rows.map fun r => (loadRow r).1

/-! ## Lemmas about digits and canonical numerals -/

theorem isDigitC_digitChar (d : ℕ) : isDigitC (digitChar d) = true := by
  unfold digitChar
  split <;> decide

theorem digitVal_digitChar {d : ℕ} (h : d < 10) : digitVal (digitChar d) = d := by
  interval_cases d <;> decide

theorem not_space_of_digit {c : Char} (h : isDigitC c = true) : isJsSpace c = false := by
  cases hc : isJsSpace c
  · rfl
  · exfalso
    simp only [isJsSpace, Bool.or_eq_true, decide_eq_true_eq] at hc
    rcases hc with ((rfl | rfl) | rfl) | rfl <;> revert h <;> decide

theorem digit_ne_plus {c : Char} (h : isDigitC c = true) : c ≠ '+' := by
  intro hc; subst hc; revert h; decide

theorem digit_ne_dash {c : Char} (h : isDigitC c = true) : c ≠ '-' := by
  intro hc; subst hc; revert h; decide

theorem digit_ne_comma {c : Char} (h : isDigitC c = true) : c ≠ ',' := by
  intro hc; subst hc; revert h; decide

theorem natCharsAux_congr :
    ∀ f g n, n < f → n < g → natCharsAux f n = natCharsAux g n := by
  intro f
  induction f with
  | zero => intro g n h; omega
  | succ f ih =>
    intro g n hf hg
    cases g with
    | zero => omega
    | succ g =>
      simp only [natCharsAux]
      by_cases h10 : n < 10
      · rw [if_pos h10, if_pos h10]
      · have hdiv : n / 10 < n := Nat.div_lt_self (by omega) (by omega)
        rw [if_neg h10, if_neg h10, ih g (n / 10) (by omega) (by omega)]

theorem natChars_eq (n : ℕ) :
    natChars n =
      if n < 10 then [digitChar n]
      else natChars (n / 10) ++ [digitChar (n % 10)] := by
  have hstep : natChars n =
      if n < 10 then [digitChar n]
      else natCharsAux n (n / 10) ++ [digitChar (n % 10)] := rfl
  by_cases h10 : n < 10
  · rw [hstep, if_pos h10, if_pos h10]
  · have hdiv : n / 10 < n := Nat.div_lt_self (by omega) (by omega)
    rw [hstep, if_neg h10, if_neg h10]
    unfold natChars
    rw [natCharsAux_congr n (n / 10 + 1) (n / 10) (by omega) (by omega)]

theorem natChars_ne_nil (n : ℕ) : natChars n ≠ [] := by
  rw [natChars_eq]
  split <;> simp

theorem natChars_digits (n : ℕ) : ∀ c ∈ natChars n, isDigitC c = true := by
  induction n using Nat.strong_induction_on with
  | _ n ih =>
    rw [natChars_eq]
    by_cases h10 : n < 10
    · simp only [h10, if_true, List.mem_singleton]
      rintro c rfl
      exact isDigitC_digitChar n
    · have hdiv : n / 10 < n := Nat.div_lt_self (by omega) (by omega)
      simp only [h10, if_false, List.mem_append, List.mem_singleton]
      rintro c (hc | rfl)
      · exact ih _ hdiv c hc
      · exact isDigitC_digitChar _

theorem valDigits_append (l : List Char) (c : Char) :
    valDigits (l ++ [c]) = 10 * valDigits l + digitVal c := by
  simp [valDigits, List.foldl_append]

theorem valDigits_natChars (n : ℕ) : valDigits (natChars n) = n := by
  induction n using Nat.strong_induction_on with
  | _ n ih =>
    rw [natChars_eq]
    by_cases h10 : n < 10
    · simp [h10, valDigits, digitVal_digitChar h10]
    · have hdiv : n / 10 < n := Nat.div_lt_self (by omega) (by omega)
      simp only [h10, if_false, valDigits_append]
      rw [ih _ hdiv, digitVal_digitChar (Nat.mod_lt _ (by omega))]
      omega

theorem intChars_natCast (n : ℕ) : intChars (n : ℤ) = natChars n := by
  simp [intChars]

/-! ## Lemmas about takeWhile / dropWhile / trim / split -/

theorem dropWhile_of_all_false {p : Char → Bool} {l : List Char}
    (h : ∀ c ∈ l, p c = false) : l.dropWhile p = l := by
  cases l with
  | nil => rfl
  | cons c r => simp [List.dropWhile_cons, h c (List.mem_cons_self c r)]

theorem takeWhile_of_all {p : Char → Bool} {l : List Char}
    (h : ∀ c ∈ l, p c = true) : l.takeWhile p = l := by
  induction l with
  | nil => rfl
  | cons c r ih =>
    simp only [List.takeWhile_cons, h c (List.mem_cons_self c r), if_true]
    rw [ih fun d hd => h d (List.mem_cons_of_mem c hd)]

theorem dropWhile_of_all {p : Char → Bool} {l : List Char}
    (h : ∀ c ∈ l, p c = true) : l.dropWhile p = [] := by
  induction l with
  | nil => rfl
  | cons c r ih =>
    simp only [List.dropWhile_cons, h c (List.mem_cons_self c r), if_true]
    exact ih fun d hd => h d (List.mem_cons_of_mem c hd)

theorem takeWhile_append_stop {p : Char → Bool} {l₁ l₂ : List Char} {c : Char}
    (h : ∀ d ∈ l₁, p d = true) (hc : p c = false) :
    (l₁ ++ c :: l₂).takeWhile p = l₁ := by
  induction l₁ with
  | nil => simp [List.takeWhile_cons, hc]
  | cons a r ih =>
    simp only [List.cons_append, List.takeWhile_cons,
      h a (List.mem_cons_self a r), if_true]
    rw [ih fun d hd => h d (List.mem_cons_of_mem a hd)]

theorem dropWhile_append_stop {p : Char → Bool} {l₁ l₂ : List Char} {c : Char}
    (h : ∀ d ∈ l₁, p d = true) (hc : p c = false) :
    (l₁ ++ c :: l₂).dropWhile p = c :: l₂ := by
  induction l₁ with
  | nil => simp [List.dropWhile_cons, hc]
  | cons a r ih =>
    simp only [List.cons_append, List.dropWhile_cons,
      h a (List.mem_cons_self a r), if_true]
    exact ih fun d hd => h d (List.mem_cons_of_mem a hd)

theorem trimChars_of_no_space {l : List Char}
    (h : ∀ c ∈ l, isJsSpace c = false) : trimChars l = l := by
  unfold trimChars
  rw [dropWhile_of_all_false h,
      dropWhile_of_all_false (fun c hc => h c (List.mem_reverse.mp hc)),
      List.reverse_reverse]

theorem jsSplit_ne_nil (sep : Char) (l : List Char) : jsSplit sep l ≠ [] := by
  cases l with
  | nil => simp [jsSplit]
  | cons c r =>
    simp only [jsSplit]
    split
    · simp
    · split <;> simp

theorem jsSplit_of_no_sep {sep : Char} {l : List Char}
    (h : ∀ c ∈ l, c ≠ sep) : jsSplit sep l = [l] := by
  induction l with
  | nil => rfl
  | cons c r ih =>
    have hc : ¬ c = sep := h c (List.mem_cons_self c r)
    simp only [jsSplit, if_neg hc]
    rw [ih fun d hd => h d (List.mem_cons_of_mem c hd)]

theorem jsSplit_append_sep {sep : Char} {l₁ l₂ : List Char}
    (h : ∀ c ∈ l₁, c ≠ sep) :
    jsSplit sep (l₁ ++ sep :: l₂) = l₁ :: jsSplit sep l₂ := by
  induction l₁ with
  | nil => simp [jsSplit]
  | cons a r ih =>
    have ha : ¬ a = sep := h a (List.mem_cons_self a r)
    have hr := ih fun d hd => h d (List.mem_cons_of_mem a hd)
    simp only [List.cons_append, jsSplit, if_neg ha, List.append_eq, hr]

theorem jsSplit_joinC {xs : List (List Char)} (hne : xs ≠ [])
    (h : ∀ x ∈ xs, ∀ c ∈ x, c ≠ ',') :
    jsSplit ',' (joinC xs) = xs := by
  induction xs with
  | nil => exact absurd rfl hne
  | cons x ys ih =>
    cases ys with
    | nil =>
      show jsSplit ',' (joinC [x]) = [x]
      exact jsSplit_of_no_sep (h x (List.mem_cons_self x []))
    | cons y zs =>
      show jsSplit ',' (x ++ ',' :: joinC (y :: zs)) = x :: y :: zs
      rw [jsSplit_append_sep (h x (List.mem_cons_self x _))]
      rw [ih (by simp) fun z hz => h z (List.mem_cons_of_mem x hz)]

/-! ## parseInt / Number on canonical numerals -/

theorem parseIntChars_digits {l : List Char} (hne : l ≠ [])
    (hd : ∀ c ∈ l, isDigitC c = true) :
    parseIntChars l = some ((valDigits l : ℤ)) := by
  obtain ⟨c, r, rfl⟩ := List.exists_cons_of_ne_nil hne
  have hc := hd c (List.mem_cons_self c r)
  have hnd : ¬ ((c :: r : List Char).headD ' ' = '-') := by
    simpa using digit_ne_dash hc
  have hnor : ¬ ((c :: r : List Char).headD ' ' = '-' ∨
      (c :: r : List Char).headD ' ' = '+') := by
    simp only [List.headD_cons]
    rintro (h1 | h2)
    exacts [digit_ne_dash hc h1, digit_ne_plus hc h2]
  unfold parseIntChars
  simp only [dropWhile_of_all_false fun d hdm => not_space_of_digit (hd d hdm)]
  rw [if_neg hnd, if_neg hnor, takeWhile_of_all hd, if_neg (List.cons_ne_nil c r)]
  simp

theorem jsNumber_digits {l : List Char} (hne : l ≠ [])
    (hd : ∀ c ∈ l, isDigitC c = true) :
    jsNumber l = some ((valDigits l : ℤ)) := by
  obtain ⟨c, r, rfl⟩ := List.exists_cons_of_ne_nil hne
  have hc := hd c (List.mem_cons_self c r)
  have hnd : ¬ ((c :: r : List Char).headD ' ' = '-') := by
    simpa using digit_ne_dash hc
  have hnor : ¬ ((c :: r : List Char).headD ' ' = '-' ∨
      (c :: r : List Char).headD ' ' = '+') := by
    simp only [List.headD_cons]
    rintro (h1 | h2)
    exacts [digit_ne_dash hc h1, digit_ne_plus hc h2]
  unfold jsNumber
  simp only [trimChars_of_no_space fun d hdm => not_space_of_digit (hd d hdm)]
  rw [if_neg (List.cons_ne_nil c r), if_neg hnd, if_neg hnor,
      if_pos ⟨List.cons_ne_nil c r, by simpa [List.all_eq_true] using hd⟩]
  simp

theorem jsNumber_natChars (n : ℕ) : jsNumber (natChars n) = some (n : ℤ) := by
  rw [jsNumber_digits (natChars_ne_nil n) (natChars_digits n), valDigits_natChars]

theorem parseIntChars_natChars (n : ℕ) : parseIntChars (natChars n) = some (n : ℤ) := by
  rw [parseIntChars_digits (natChars_ne_nil n) (natChars_digits n), valDigits_natChars]

/-! ## The player-count grammar on canonical numerals -/

theorem natChars_no_space (n : ℕ) : ∀ c ∈ natChars n, isJsSpace c = false :=
  fun c hc => not_space_of_digit (natChars_digits n c hc)

theorem natChars_getLast_digit (n : ℕ) :
    ∃ c, (natChars n).getLast? = some c ∧ isDigitC c = true := by
  refine ⟨(natChars n).getLast (natChars_ne_nil n),
    List.getLast?_eq_getLast _ (natChars_ne_nil n), ?_⟩
  exact natChars_digits n _ (List.getLast_mem _)

theorem parsePCRest_natChars (n : ℕ) :
    parsePCRest (natChars n) = ⟨(n : ℤ), some (n : ℤ), false⟩ := by
  unfold parsePCRest rangeSplit
  rw [dropWhile_of_all (natChars_digits n)]
  simp [parseIntChars_natChars, intChars_natCast]

theorem parsePlayerCount_natChars (n : ℕ) :
    parsePlayerCount ⟨natChars n⟩ = ⟨(n : ℤ), some (n : ℤ), false⟩ := by
  unfold parsePlayerCount
  rw [if_neg (by simpa using natChars_ne_nil n)]
  show parsePCTrimmed (trimChars (natChars n)) = _
  rw [trimChars_of_no_space (natChars_no_space n)]
  obtain ⟨c, hlast, hdig⟩ := natChars_getLast_digit n
  unfold parsePCTrimmed
  rw [if_neg (by rw [hlast]; simpa using digit_ne_plus hdig)]
  exact parsePCRest_natChars n

theorem parsePlayerCount_open (n : ℕ) :
    parsePlayerCount ⟨natChars n ++ ['+']⟩ = ⟨(n : ℤ), none, true⟩ := by
  unfold parsePlayerCount
  rw [if_neg (by simp)]
  show parsePCTrimmed (trimChars (natChars n ++ ['+'])) = _
  rw [trimChars_of_no_space (by
    intro c hc
    rcases List.mem_append.mp hc with h | h
    · exact natChars_no_space n c h
    · simp only [List.mem_singleton] at h; subst h; decide)]
  unfold parsePCTrimmed
  rw [if_pos (by rw [List.getLast?_concat])]
  rw [List.dropLast_concat]
  simp [parseIntChars_natChars, intChars_natCast]

theorem parsePlayerCount_pair (a b : ℕ) :
    parsePlayerCount ⟨natChars a ++ '-' :: natChars b⟩ =
      ⟨(a : ℤ), some (b : ℤ), false⟩ := by
  unfold parsePlayerCount
  rw [if_neg (by simp [natChars_ne_nil a])]
  show parsePCTrimmed (trimChars (natChars a ++ '-' :: natChars b)) = _
  rw [trimChars_of_no_space (by
    intro c hc
    rcases List.mem_append.mp hc with h | h
    · exact natChars_no_space a c h
    · rcases List.mem_cons.mp h with rfl | h
      · decide
      · exact natChars_no_space b c h)]
  obtain ⟨c, hlast, hdig⟩ := natChars_getLast_digit b
  have hall : (natChars b).all isDigitC = true := by
    simpa [List.all_eq_true] using natChars_digits b
  unfold parsePCTrimmed
  rw [if_neg (by
    rw [List.getLast?_append_of_ne_nil (natChars a) (List.cons_ne_nil _ _),
        List.getLast?_cons, hlast]
    simpa using digit_ne_plus hdig)]
  unfold parsePCRest rangeSplit
  rw [takeWhile_append_stop (natChars_digits a) (by decide),
      dropWhile_append_stop (natChars_digits a) (by decide)]
  simp [natChars_ne_nil, hall, parseIntChars_natChars]

/-! ## The player filter: code tokens vs. the specified semantics -/

theorem rangeMatches_sentinel {n : ℤ} (h : 1 ≤ n) :
    rangeMatches sentinelRange n = false := by
  rw [show rangeMatches sentinelRange n =
      (decide (0 ≤ n) && decide (n ≤ 0)) from rfl]
  simp only [Bool.and_eq_false_iff, decide_eq_false_iff_not]
  omega

theorem mainToken_ne_empty (n : ℕ) : mainToken n ≠ "" := by
  intro h
  exact natChars_ne_nil n (congrArg String.data h)

theorem mainToken_ne_any (n : ℕ) : mainToken n ≠ "any" := by
  intro h
  have hdata : natChars n = ['a', 'n', 'y'] := congrArg String.data h
  have ha : 'a' ∈ natChars n := by rw [hdata]; simp
  exact absurd (natChars_digits n 'a' ha) (by decide)

theorem subToken_ne_empty (n : ℕ) (tag : String) : subToken n tag ≠ "" := by
  intro h
  have hdata : natChars n ++ '-' :: tag.data = [] := congrArg String.data h
  simp at hdata

theorem subToken_ne_any (n : ℕ) (tag : String) : subToken n tag ≠ "any" := by
  intro h
  have hdata : natChars n ++ '-' :: tag.data = ['a', 'n', 'y'] :=
    congrArg String.data h
  obtain ⟨c, r, hcr⟩ := List.exists_cons_of_ne_nil (natChars_ne_nil n)
  have hc : isDigitC c = true := natChars_digits n c (by rw [hcr]; simp)
  rw [hcr] at hdata
  simp only [List.cons_append, List.cons.injEq] at hdata
  exact absurd (hdata.1 ▸ hc) (by decide)

theorem natChars_no_dash (n : ℕ) : ∀ c ∈ natChars n, c ≠ '-' :=
  fun c hc => digit_ne_dash (natChars_digits n c hc)

/-- On a `Main(n)` token with `n ≥ 1`, the player-filter block of
`filterGames` computes exactly the specified `Main(n)` condition (the
`!count` guard of the source is invisible for `n ≥ 1`, because the sentinel
parse of an empty spec matches no such `n`). -/
theorem playersGuard_mainToken {n : ℕ} (hn : 1 ≤ n) (g : Game) :
    playersGuard (mainToken n) g = claimMainPass (n : ℤ) g := by
  have hdata : (mainToken n).data = natChars n := rfl
  have hsplit : jsSplit '-' (natChars n) = [natChars n] :=
    jsSplit_of_no_sep (natChars_no_dash n)
  unfold playersGuard
  rw [if_pos ⟨mainToken_ne_empty n, mainToken_ne_any n⟩]
  simp only [hdata, hsplit, List.headD_cons, jsNumber_natChars,
    List.length_cons, List.length_nil, lt_self_iff_false, if_false]
  unfold claimMainPass
  congr 1
  funext pr
  by_cases h1 : pr.1 = ""
  · rw [if_pos (Or.inl h1), h1]
    have hp : parsePlayerCount "" = sentinelRange := rfl
    rw [hp, rangeMatches_sentinel (by exact_mod_cast hn)]
    simp
  · by_cases h2 : pr.2 = "not recommended"
    · rw [if_pos (Or.inr h2)]
      simp [h2]
    · rw [if_neg (by rintro (h | h); exacts [h1 h, h2 h])]
      simp [h2]

/-- On a `Sub(n, tag)` token with `n ≥ 1` and a nonempty dash-free tag, the
player-filter block computes exactly the specified `Sub(n, tag)` condition. -/
theorem playersGuard_subToken {n : ℕ} (hn : 1 ≤ n) {tag : String}
    (htag : tag ≠ "") (hdash : ∀ c ∈ tag.data, c ≠ '-') (g : Game) :
    playersGuard (subToken n tag) g = claimSubPass (n : ℤ) tag g := by
  have hsplit : jsSplit '-' (natChars n ++ '-' :: tag.data) =
      [natChars n, tag.data] := by
    rw [jsSplit_append_sep (natChars_no_dash n), jsSplit_of_no_sep hdash]
  have htagd : tag.data ≠ [] := fun h =>
    htag (show tag = "" from congrArg String.mk h)
  have hdata : (subToken n tag).data = natChars n ++ '-' :: tag.data := rfl
  have hgetd : ([natChars n, tag.data].getD 1 []) = tag.data := rfl
  have h12 : (1 : ℕ) < 2 := by norm_num
  unfold playersGuard
  rw [if_pos ⟨subToken_ne_empty n tag, subToken_ne_any n tag⟩]
  simp only [hdata, hsplit, List.headD_cons, jsNumber_natChars,
    List.length_cons, List.length_nil, hgetd, h12, if_true]
  unfold claimSubPass
  congr 1
  funext pr
  by_cases h1 : pr.1 = ""
  · rw [if_pos (Or.inl h1), h1]
    have hp : parsePlayerCount "" = sentinelRange := rfl
    rw [hp, rangeMatches_sentinel (by exact_mod_cast hn)]
    simp
  · by_cases h2 : pr.2 = "not recommended"
    · rw [if_pos (Or.inr h2)]
      simp [h2]
    · rw [if_neg (by rintro (h | h); exacts [h1 h, h2 h])]
      by_cases h3 : pr.2 = tag
      · have hde : pr.2.data = tag.data := congrArg String.data h3
        have htagnr : ¬ tag = "not recommended" := fun hh => h2 (h3.trans hh)
        simp [h2, h3, hde, htagnr]
      · have hde : pr.2.data ≠ tag.data := fun h =>
          h3 (show pr.2 = tag from congrArg String.mk h)
        simp [h3, hde, htagd]

/-- `playersGuard "any"` passes everything. -/
theorem playersGuard_any (g : Game) : playersGuard "any" g = true := by
  simp [playersGuard]

/-- A token whose leading dash-segment is not numeric silently disables the
player constraint. -/
theorem playersGuard_nan {token : String}
    (hnum : jsNumber ((jsSplit '-' token.data).headD []) = none) (g : Game) :
    playersGuard token g = true := by
  unfold playersGuard
  by_cases h : token ≠ "" ∧ token ≠ "any"
  · rw [if_pos h]
    simp only [hnum]
  · rw [if_neg h]

/-! ## Stable-sort lemmas for `isort` -/

theorem insertSorted_perm (le : α → α → Bool) (x : α) :
    ∀ l, List.Perm (insertSorted le x l) (x :: l) := by
  intro l
  induction l with
  | nil => exact List.Perm.refl _
  | cons y ys ih =>
    unfold insertSorted
    by_cases h : le x y = true
    · rw [if_pos h]
    · rw [if_neg h]
      exact (ih.cons y).trans (List.Perm.swap x y ys)

theorem isort_perm (le : α → α → Bool) :
    ∀ l : List α, List.Perm (isort le l) l := by
  intro l
  induction l with
  | nil => exact List.Perm.refl _
  | cons x xs ih =>
    exact (insertSorted_perm le x (isort le xs)).trans (ih.cons x)

theorem mem_insertSorted {le : α → α → Bool} {x z : α} {l : List α}
    (h : z ∈ insertSorted le x l) : z = x ∨ z ∈ l := by
  have := (insertSorted_perm le x l).mem_iff.mp h
  simpa using this

theorem insertSorted_sorted {le : α → α → Bool}
    (trans : ∀ a b c, le a b = true → le b c = true → le a c = true)
    (total : ∀ a b, le a b = true ∨ le b a = true)
    {x : α} {l : List α} (hl : l.Pairwise (le · · = true)) :
    (insertSorted le x l).Pairwise (le · · = true) := by
  induction l with
  | nil => simp [insertSorted]
  | cons y ys ih =>
    rcases List.pairwise_cons.mp hl with ⟨hy, hys⟩
    unfold insertSorted
    by_cases h : le x y = true
    · rw [if_pos h]
      refine List.pairwise_cons.mpr ⟨?_, hl⟩
      intro z hz
      rcases List.mem_cons.mp hz with rfl | hz
      · exact h
      · exact trans x y z h (hy z hz)
    · rw [if_neg h]
      refine List.pairwise_cons.mpr ⟨?_, ih hys⟩
      intro z hz
      rcases mem_insertSorted hz with rfl | hz
      · exact (total z y).resolve_left h
      · exact hy z hz

theorem isort_sorted {le : α → α → Bool}
    (trans : ∀ a b c, le a b = true → le b c = true → le a c = true)
    (total : ∀ a b, le a b = true ∨ le b a = true) :
    ∀ l : List α, (isort le l).Pairwise (le · · = true) := by
  intro l
  induction l with
  | nil => simp [isort]
  | cons x xs ih => exact insertSorted_sorted trans total ih

theorem filter_insertSorted_neg {le : α → α → Bool} {p : α → Bool} {x : α}
    (hx : p x = false) : ∀ l, (insertSorted le x l).filter p = l.filter p := by
  intro l
  induction l with
  | nil => simp [insertSorted, hx]
  | cons y ys ih =>
    unfold insertSorted
    by_cases h : le x y = true
    · rw [if_pos h]
      simp [hx]
    · rw [if_neg h]
      by_cases hy : p y = true <;> simp [List.filter_cons, hy, ih]

theorem filter_insertSorted_pos {le : α → α → Bool} {p : α → Bool} {x : α}
    (hx : p x = true) (hp : ∀ y, p y = true → le x y = true) :
    ∀ l, (insertSorted le x l).filter p = x :: l.filter p := by
  intro l
  induction l with
  | nil => simp [insertSorted, hx]
  | cons y ys ih =>
    unfold insertSorted
    by_cases h : le x y = true
    · rw [if_pos h]
      simp [hx]
    · rw [if_neg h]
      have hy : p y = false := by
        cases hpy : p y
        · rfl
        · exact absurd (hp y hpy) h
      simp [List.filter_cons, hy, ih]

/-- Stability of `isort` in filter form: for a predicate that holds only
within one equivalence class of the comparator (any two elements satisfying
`p` compare `le` both ways), sorting does not reorder the `p`-elements. -/
theorem isort_filter_stable {le : α → α → Bool} {p : α → Bool}
    (hp : ∀ a b, p a = true → p b = true → le a b = true) :
    ∀ l : List α, (isort le l).filter p = l.filter p := by
  intro l
  induction l with
  | nil => rfl
  | cons x xs ih =>
    show (insertSorted le x (isort le xs)).filter p = (x :: xs).filter p
    cases hx : p x
    · rw [filter_insertSorted_neg hx, ih]
      simp [List.filter_cons, hx]
    · rw [filter_insertSorted_pos hx (fun y hy => hp x y hx hy), ih]
      simp [List.filter_cons, hx]

/-! ## Paginator lemmas -/

theorem jsSlice_nonneg (l : List α) {s e : ℤ} (hs : 0 ≤ s) (he : 0 ≤ e) :
    jsSlice l s e = (l.drop s.toNat).take (e.toNat - s.toNat) := by
  unfold jsSlice clampIndex
  rw [if_neg (by omega), if_neg (by omega)]
  by_cases hsl : s.toNat ≤ l.length
  · rw [min_eq_left hsl]
    by_cases hel : e.toNat ≤ l.length
    · rw [min_eq_left hel]
    · rw [min_eq_right (le_of_not_le hel)]
      have hlen : (l.drop s.toNat).length = l.length - s.toNat := by
        simp [List.length_drop]
      rw [List.take_of_length_le (by omega), List.take_of_length_le (by omega)]
  · rw [min_eq_right (le_of_not_le hsl)]
    have h1 : l.drop l.length = [] := List.drop_eq_nil_of_le le_rfl
    have h2 : l.drop s.toNat = [] := List.drop_eq_nil_of_le (by omega)
    rw [h1, h2, List.take_nil, List.take_nil]

/-- With a page number ≥ 1, the slice of `updateResults` is exactly
"skip `(page-1)*48`, take `48`" — unclamped. -/
theorem paginate_eq (l : List α) {p : ℤ} (hp : 1 ≤ p) :
    paginate l p = (l.drop ((p - 1) * 48).toNat).take 48 := by
  unfold paginate GAMES_PER_PAGE
  rw [jsSlice_nonneg l (by nlinarith) (by nlinarith)]
  congr 1
  omega

/-! ## Facet-count lemmas -/

/-- Clearing a facet group's own constraint only weakens the filter: an item
passing the full state also passes the cleared state. -/
theorem gamePasses_clearGroup (v : FacetVal) (f : FilterState) (g : Game)
    (h : gamePasses f g = true) : gamePasses (clearGroup v f) g = true := by
  simp only [gamePasses, Bool.and_eq_true] at h
  obtain ⟨⟨⟨⟨⟨⟨⟨⟨hq, hc⟩, hm⟩, hp⟩, hw⟩, ht⟩, hpp⟩, ha⟩, hn⟩ := h
  cases v with
  | category _ =>
    simp only [gamePasses, clearGroup, Bool.and_eq_true]
    exact ⟨⟨⟨⟨⟨⟨⟨⟨hq, by simp⟩, hm⟩, hp⟩, hw⟩, ht⟩, hpp⟩, ha⟩, hn⟩
  | mechanic _ =>
    simp only [gamePasses, clearGroup, Bool.and_eq_true]
    exact ⟨⟨⟨⟨⟨⟨⟨⟨hq, hc⟩, by simp⟩, hp⟩, hw⟩, ht⟩, hpp⟩, ha⟩, hn⟩
  | player _ =>
    simp only [gamePasses, clearGroup, Bool.and_eq_true]
    exact ⟨⟨⟨⟨⟨⟨⟨⟨hq, hc⟩, hm⟩, playersGuard_any g⟩, hw⟩, ht⟩, hpp⟩, ha⟩, hn⟩
  | playerSub _ _ =>
    simp only [gamePasses, clearGroup, Bool.and_eq_true]
    exact ⟨⟨⟨⟨⟨⟨⟨⟨hq, hc⟩, hm⟩, playersGuard_any g⟩, hw⟩, ht⟩, hpp⟩, ha⟩, hn⟩
  | weightName _ =>
    simp only [gamePasses, clearGroup, Bool.and_eq_true]
    exact ⟨⟨⟨⟨⟨⟨⟨⟨hq, hc⟩, hm⟩, hp⟩, by simp⟩, ht⟩, hpp⟩, ha⟩, hn⟩
  | playingTime _ =>
    simp only [gamePasses, clearGroup, Bool.and_eq_true]
    exact ⟨⟨⟨⟨⟨⟨⟨⟨hq, hc⟩, hm⟩, hp⟩, hw⟩, by simp⟩, hpp⟩, ha⟩, hn⟩
  | prevPlayer _ =>
    simp only [gamePasses, clearGroup, Bool.and_eq_true]
    exact ⟨⟨⟨⟨⟨⟨⟨⟨hq, hc⟩, hm⟩, hp⟩, hw⟩, ht⟩, by simp⟩, ha⟩, hn⟩
  | ageBucket _ _ =>
    simp only [gamePasses, clearGroup, Bool.and_eq_true]
    exact ⟨⟨⟨⟨⟨⟨⟨⟨hq, hc⟩, hm⟩, hp⟩, hw⟩, ht⟩, hpp⟩, trivial⟩, hn⟩
  | playsBucket _ _ =>
    simp only [gamePasses, clearGroup, Bool.and_eq_true]
    exact ⟨⟨⟨⟨⟨⟨⟨⟨hq, hc⟩, hm⟩, hp⟩, hw⟩, ht⟩, hpp⟩, ha⟩, trivial⟩

theorem dropWhile_append_singleton {p : Char → Bool} {c : Char}
    (hc : p c = false) :
    ∀ l : List Char, (l ++ [c]).dropWhile p = l.dropWhile p ++ [c] := by
  intro l
  induction l with
  | nil => simp [List.dropWhile_cons, hc]
  | cons x xs ih =>
    by_cases hx : p x = true
    · simpa [List.dropWhile_cons, hx] using ih
    · simp [List.dropWhile_cons, hx]

theorem mem_dropWhile_of_not {p : Char → Bool} {c : Char} {l : List Char}
    (hmem : c ∈ l) (hc : p c = false) : c ∈ l.dropWhile p := by
  induction l with
  | nil => cases hmem
  | cons x xs ih =>
    by_cases hx : p x = true
    · rw [List.dropWhile_cons, if_pos hx]
      rcases List.mem_cons.mp hmem with rfl | h
      · rw [hx] at hc; cases hc
      · exact ih h
    · rw [List.dropWhile_cons, if_neg hx]
      exact hmem

theorem mem_trimChars {c : Char} {l : List Char} (hmem : c ∈ l)
    (hc : isJsSpace c = false) : c ∈ trimChars l := by
  unfold trimChars
  rw [List.mem_reverse]
  exact mem_dropWhile_of_not (List.mem_reverse.mpr (mem_dropWhile_of_not hmem hc)) hc

theorem trimChars_cons_of_not_space {c : Char} {l : List Char}
    (hc : isJsSpace c = false) :
    trimChars (c :: l) = c :: (l.reverse.dropWhile isJsSpace).reverse := by
  unfold trimChars
  rw [List.dropWhile_cons, if_neg (by simp [hc])]
  rw [List.reverse_cons, dropWhile_append_singleton hc, List.reverse_append]
  simp

/-- `Number` of a digit-headed token containing a dash is `NaN`: the dash
survives trimming and defeats the all-digits check. -/
theorem jsNumber_digitDash (n : ℕ) (l : List Char) :
    jsNumber (natChars n ++ '-' :: l) = none := by
  obtain ⟨c, r, hcr⟩ := List.exists_cons_of_ne_nil (natChars_ne_nil n)
  have hcd : isDigitC c = true := natChars_digits n c (by rw [hcr]; simp)
  have hcs : isJsSpace c = false := not_space_of_digit hcd
  have hform : natChars n ++ '-' :: l = c :: (r ++ '-' :: l) := by
    rw [hcr]; simp
  set m : List Char := ((r ++ '-' :: l).reverse.dropWhile isJsSpace).reverse with hm
  have htrim : trimChars (natChars n ++ '-' :: l) = c :: m := by
    rw [hform, trimChars_cons_of_not_space hcs]
  have hdmem : '-' ∈ c :: m := by
    rw [← htrim]
    exact mem_trimChars (by simp) (by decide)
  have hall : (c :: m).all isDigitC = false := by
    cases hal : (c :: m).all isDigitC
    · rfl
    · exact absurd (List.all_eq_true.mp hal '-' hdmem) (by decide)
  have hnd : ¬ ((c :: m : List Char).headD ' ' = '-') := by
    simpa using digit_ne_dash hcd
  have hnor : ¬ ((c :: m : List Char).headD ' ' = '-' ∨
      (c :: m : List Char).headD ' ' = '+') := by
    simp only [List.headD_cons]
    rintro (h1 | h2)
    exacts [digit_ne_dash hcd h1, digit_ne_plus hcd h2]
  have hfin : ¬ ((c :: m : List Char) ≠ [] ∧ (c :: m).all isDigitC) := by
    rintro ⟨h1, h2⟩
    rw [hall] at h2
    exact absurd h2 (by decide)
  unfold jsNumber
  simp only [htrim]
  rw [if_neg (List.cons_ne_nil c m), if_neg hnd, if_neg hnor, if_neg hfin]

theorem jsNumber_subToken (n : ℕ) (tag : String) :
    jsNumber (subToken n tag).data = none :=
  jsNumber_digitDash n tag.data

theorem playerCountMem_nan {value : String}
    (h : jsNumber value.data = none) (g : Game) :
    playerCountMem value g = false := by
  simp [playerCountMem, h]

theorem playerCountMem_mainToken (n : ℕ) (g : Game) :
    playerCountMem (mainToken n) g =
      g.players.any fun pr =>
        pr.2 ≠ "not recommended" &&
        ((parsePlayerCount pr.1).min ≤ (n : ℤ) &&
         jsLeMax (n : ℤ) (parsePlayerCount pr.1).max) := by
  unfold playerCountMem
  rw [show (mainToken n).data = natChars n from rfl, jsNumber_natChars]

theorem parsePCRest_isOpen (t : List Char) : (parsePCRest t).isOpen = false := by
  unfold parsePCRest
  cases hr : rangeSplit t with
  | some pq => simp [hr]
  | none =>
    cases hp : parseIntChars t with
    | none => simp [hr, hp, sentinelRange]
    | some v =>
      simp only [hr, hp]
      split <;> simp [sentinelRange]

/-- Every open range produced by `parsePlayerCount` has the infinite upper
bound. -/
theorem parse_open_max (s : String)
    (h : (parsePlayerCount s).isOpen = true) :
    (parsePlayerCount s).max = none := by
  unfold parsePlayerCount at h ⊢
  by_cases hd : s.data = []
  · rw [if_pos hd] at h
    cases h
  · rw [if_neg hd] at h ⊢
    unfold parsePCTrimmed at h ⊢
    by_cases hl : (trimChars s.data).getLast? = some '+'
    · rw [if_pos hl] at h ⊢
      cases hp : parseIntChars (trimChars s.data).dropLast with
      | none =>
        simp only [hp] at h
        rw [parsePCRest_isOpen] at h
        cases h
      | some v =>
        simp only [hp] at h ⊢
        by_cases hc : intChars v = (trimChars s.data).dropLast
        · rw [if_pos hc]
        · rw [if_neg hc] at h
          rw [parsePCRest_isOpen] at h
          cases h
    · rw [if_neg hl] at h
      rw [parsePCRest_isOpen] at h
      cases h

/-- The specified `Main(n)` containment implies the counting test: the
count's min/max comparison ignores the `open` flag but open parses have an
infinite upper bound. -/
theorem claimMainPass_imp_countMem (n : ℕ) (g : Game)
    (h : claimMainPass (n : ℤ) g = true) :
    playerCountMem (mainToken n) g = true := by
  rw [playerCountMem_mainToken]
  unfold claimMainPass at h
  rcases List.any_eq_true.mp h with ⟨pr, hmem, hpr⟩
  refine List.any_eq_true.mpr ⟨pr, hmem, ?_⟩
  simp only [Bool.and_eq_true] at hpr ⊢
  refine ⟨hpr.1, ?_⟩
  have hrm := hpr.2
  unfold rangeMatches at hrm
  by_cases ho : (parsePlayerCount pr.1).isOpen = true
  · rw [if_pos ho] at hrm
    have heq : (n : ℤ) = (parsePlayerCount pr.1).min := of_decide_eq_true hrm
    rw [parse_open_max pr.1 ho]
    exact ⟨decide_eq_true (le_of_eq heq.symm), rfl⟩
  · rw [if_neg ho] at hrm
    simp only [Bool.and_eq_true] at hrm
    exact hrm

/-- On every facet value other than a player sub-value, the claim's
containment implies the counting test. -/
theorem fieldContains_imp_countMem (v : FacetVal)
    (hv : ∀ (n : ℕ) (tag : String), v ≠ FacetVal.playerSub n tag)
    (g : Game) (h : fieldContains v g = true) : countMem v g = true := by
  cases v with
  | category s => exact h
  | mechanic s => exact h
  | player n => exact claimMainPass_imp_countMem n g h
  | playerSub n tag => exact absurd rfl (hv n tag)
  | weightName s => exact h
  | playingTime s => exact h
  | prevPlayer s => exact h
  | ageBucket lo hi => exact h
  | playsBucket lo hi => exact h

/-- The counting test tallied over the fully filtered list never exceeds
the cleared cross-filter count. -/
theorem countMem_facet_mono (v : FacetVal) (items : List Game)
    (f : FilterState) :
    (filterGames items f).countP (countMem v) ≤ facetCount v items f := by
  unfold facetCount filterGames
  rw [List.countP_filter, List.countP_filter]
  refine List.countP_mono_left fun g hg h => ?_
  simp only [Bool.and_eq_true] at h ⊢
  exact ⟨h.1, gamePasses_clearGroup v f g h.2⟩

/-! ## Round-trip lemmas for the URL codec -/

/-- A facet value that survives the comma-join/split of the codec: nonempty
and comma-free.  (Real facet values — category and mechanic names, player
names, weight buckets, playing-time buckets — are all of this shape.) -/
@[reducible] def ValOk (s : String) : Prop := s ≠ "" ∧ ∀ c ∈ s.data, c ≠ ','

/-- A range bound that survives the `"min-max"` serialization: `NaN` or a
non-negative integer. -/
@[reducible] def BoundOk : Option ℤ → Prop
  | none => True
  | some i => 0 ≤ i

/-- Both bounds of a possibly-absent range are `BoundOk`. -/
@[reducible] def RangeOk : Option NumRange → Prop
  | none => True
  | some r => BoundOk r.min ∧ BoundOk r.max

/-- A filter state on which the URL codec is lossless: facet values
nonempty and comma-free, range bounds non-negative (or `NaN`), a nonempty
player token and sort key, and a page number ≥ 1. -/
@[reducible] def Regular (f : FilterState) : Prop :=
  (∀ x ∈ f.selectedCategories, ValOk x) ∧
  (∀ x ∈ f.selectedMechanics, ValOk x) ∧
  (∀ x ∈ f.selectedWeight, ValOk x) ∧
  (∀ x ∈ f.selectedPlayingTime, ValOk x) ∧
  (∀ x ∈ f.selectedPreviousPlayers, ValOk x) ∧
  f.selectedPlayerFilter ≠ "" ∧
  RangeOk f.selectedMinAge ∧
  RangeOk f.selectedNumPlays ∧
  f.sortBy ≠ "" ∧
  1 ≤ f.page

theorem getParam_append (ps qs : Params) (k : String) :
    getParam (ps ++ qs) k = (getParam ps k).or (getParam qs k) := by
  unfold getParam
  rw [List.find?_append]
  cases ps.find? fun p => p.1 = k <;> simp

theorem getParam_if_ne (c : Prop) [Decidable c] {k k' : String} (v : String)
    (h : ¬ k = k') :
    getParam (if c then [(k, v)] else []) k' = none := by
  split <;> simp [getParam, h]

theorem getParam_if_self (c : Prop) [Decidable c] (k v : String) :
    getParam (if c then [(k, v)] else []) k =
      if c then some v else none := by
  split <;> simp [getParam]

theorem getParam_if_ne2 (c : Prop) [Decidable c] {k k' : String} (v : String)
    (h : ¬ k = k') :
    getParam (if c then [] else [(k, v)]) k' = none := by
  split <;> simp [getParam, h]

theorem getParam_if_self2 (c : Prop) [Decidable c] (k v : String) :
    getParam (if c then [] else [(k, v)]) k =
      if c then none else some v := by
  split <;> simp [getParam]

theorem getParam_opt_ne {o : Option NumRange} {k k' : String}
    (h : ¬ k = k') :
    getParam (match o with
              | some r => [(k, rangeToString r)]
              | none => []) k' = none := by
  cases o <;> simp [getParam, h]

theorem getParam_opt_self {o : Option NumRange} {k : String} :
    getParam (match o with
              | some r => [(k, rangeToString r)]
              | none => []) k = o.map rangeToString := by
  cases o <;> simp [getParam]

theorem splitList_joinC {l : List String} (hne : l ≠ [])
    (h : ∀ x ∈ l, ValOk x) :
    splitList (some ⟨joinC (l.map String.data)⟩) = l := by
  simp only [splitList]
  have hmapne : l.map String.data ≠ [] := by simpa using hne
  have hcomma : ∀ x ∈ l.map String.data, ∀ c ∈ x, c ≠ ',' := by
    intro x hx c hc
    obtain ⟨s, hs, rfl⟩ := List.mem_map.mp hx
    exact (h s hs).2 c hc
  rw [jsSplit_joinC hmapne hcomma]
  rw [List.filter_eq_self.mpr (by
    intro x hx
    obtain ⟨s, hs, rfl⟩ := List.mem_map.mp hx
    have : s.data ≠ [] := fun hd => (h s hs).1 (congrArg String.mk hd)
    simpa using this)]
  rw [List.map_map]
  have : (String.mk ∘ String.data) = id := funext fun s => rfl
  rw [this, List.map_id]

theorem jsNumber_NaN : jsNumber "NaN".data = none := by decide

theorem jsNumber_numToChars {b : Option ℤ} (hb : BoundOk b) :
    jsNumber (numToChars b) = b := by
  cases b with
  | none => exact jsNumber_NaN
  | some i =>
    have h0 : 0 ≤ i := hb
    show jsNumber (intChars i) = some i
    rw [intChars, if_neg (by omega), jsNumber_natChars,
        Int.toNat_of_nonneg h0]

theorem numToChars_no_dash {b : Option ℤ} (hb : BoundOk b) :
    ∀ c ∈ numToChars b, c ≠ '-' := by
  cases b with
  | none =>
    intro c hc
    have hc2 : c ∈ ('N' :: 'a' :: 'N' :: []) := hc
    have : c = 'N' ∨ c = 'a' ∨ c = 'N' := by simpa using hc2
    rcases this with rfl | rfl | rfl <;> decide
  | some i =>
    have h0 : 0 ≤ i := hb
    intro c hc
    rw [show numToChars (some i) = intChars i from rfl,
        intChars, if_neg (by omega)] at hc
    exact digit_ne_dash (natChars_digits _ c hc)

theorem decodeRange_rangeToString {r : NumRange}
    (h1 : BoundOk r.min) (h2 : BoundOk r.max) :
    decodeRange (some (rangeToString r)) = some r := by
  have hdata : (rangeToString r).data =
      numToChars r.min ++ '-' :: numToChars r.max := rfl
  have hne : rangeToString r ≠ "" := by
    intro h
    have : numToChars r.min ++ '-' :: numToChars r.max = [] := congrArg String.data h
    simp at this
  simp only [decodeRange]
  rw [if_neg hne]
  unfold parseRangeParam
  rw [hdata, jsSplit_append_sep (numToChars_no_dash h1),
      jsSplit_of_no_sep (numToChars_no_dash h2)]
  simp only [List.headD_cons, List.drop_succ_cons, List.drop_zero]
  rw [jsNumber_numToChars h1, jsNumber_numToChars h2]

/-- On regular states, decoding the encoded parameter list restores the
state exactly. -/
theorem decode_encode {f : FilterState} (hf : Regular f) :
    decodeFilters (encodeFilters f) = f := by
  obtain ⟨q, cats, mechs, pf, w, pt, pp, ma, np, sb, pg⟩ := f
  obtain ⟨hcats, hmechs, hw, hpt, hpp, hpf, hma, hnp, hsb, hpg⟩ := hf
  simp only at hcats hmechs hw hpt hpp hpf hma hnp hsb hpg
  set f : FilterState := ⟨q, cats, mechs, pf, w, pt, pp, ma, np, sb, pg⟩ with hfdef
  have kq : getParam (encodeFilters f) "q" =
      (if q = "" then none else some q) := by
    unfold encodeFilters
    simp [getParam_append, getParam_if_ne, getParam_if_ne2, getParam_opt_ne, getParam_if_self, getParam_if_self2]
  have kcat : getParam (encodeFilters f) "categories" =
      (if cats = [] then none else some ⟨joinC (cats.map String.data)⟩) := by
    unfold encodeFilters
    simp [getParam_append, getParam_if_ne, getParam_if_ne2, getParam_opt_ne, getParam_if_self, getParam_if_self2]
  have kmech : getParam (encodeFilters f) "mechanics" =
      (if mechs = [] then none else some ⟨joinC (mechs.map String.data)⟩) := by
    unfold encodeFilters
    simp [getParam_append, getParam_if_ne, getParam_if_ne2, getParam_opt_ne, getParam_if_self, getParam_if_self2]
  have kpl : getParam (encodeFilters f) "players" =
      (if pf ≠ "" ∧ pf ≠ "any" then some pf else none) := by
    unfold encodeFilters
    simp [getParam_append, getParam_if_ne, getParam_if_ne2, getParam_opt_ne, getParam_if_self, getParam_if_self2]
  have kw : getParam (encodeFilters f) "weight" =
      (if w = [] then none else some ⟨joinC (w.map String.data)⟩) := by
    unfold encodeFilters
    simp [getParam_append, getParam_if_ne, getParam_if_ne2, getParam_opt_ne, getParam_if_self, getParam_if_self2]
  have kpt : getParam (encodeFilters f) "playing_time" =
      (if pt = [] then none else some ⟨joinC (pt.map String.data)⟩) := by
    unfold encodeFilters
    simp [getParam_append, getParam_if_ne, getParam_if_ne2, getParam_opt_ne, getParam_if_self, getParam_if_self2]
  have kpp : getParam (encodeFilters f) "previous_players" =
      (if pp = [] then none else some ⟨joinC (pp.map String.data)⟩) := by
    unfold encodeFilters
    simp [getParam_append, getParam_if_ne, getParam_if_ne2, getParam_opt_ne, getParam_if_self, getParam_if_self2]
  have kma : getParam (encodeFilters f) "min_age" = ma.map rangeToString := by
    unfold encodeFilters
    simp [getParam_append, getParam_if_ne, getParam_if_ne2, getParam_opt_ne, getParam_opt_self]
  have knp : getParam (encodeFilters f) "numplays" = np.map rangeToString := by
    unfold encodeFilters
    simp [getParam_append, getParam_if_ne, getParam_if_ne2, getParam_opt_ne, getParam_opt_self]
  have ks : getParam (encodeFilters f) "sort" =
      (if sb ≠ "" ∧ sb ≠ "name" then some sb else none) := by
    unfold encodeFilters
    simp [getParam_append, getParam_if_ne, getParam_if_ne2, getParam_opt_ne, getParam_if_self, getParam_if_self2]
  have kpg : getParam (encodeFilters f) "page" =
      (if 1 < pg then some ⟨intChars pg⟩ else none) := by
    unfold encodeFilters
    simp [getParam_append, getParam_if_ne, getParam_if_ne2, getParam_opt_ne, getParam_if_self, getParam_if_self2]
  unfold decodeFilters
  rw [kq, kcat, kmech, kpl, kw, kpt, kpp, kma, knp, ks, kpg]
  simp only [hfdef, FilterState.mk.injEq]
  refine ⟨?_, ?_, ?_, ?_, ?_, ?_, ?_, ?_, ?_, ?_, ?_⟩
  · by_cases h : q = "" <;> simp [jsOrStr, h]
  · by_cases h : cats = []
    · simp [splitList, h]
    · rw [if_neg h, splitList_joinC h hcats]
  · by_cases h : mechs = []
    · simp [splitList, h]
    · rw [if_neg h, splitList_joinC h hmechs]
  · by_cases h : pf = "any"
    · rw [if_neg (by simp [h])]
      simp [jsOrStr, h]
    · rw [if_pos ⟨hpf, h⟩]
      simp [jsOrStr, hpf]
  · by_cases h : w = []
    · simp [splitList, h]
    · rw [if_neg h, splitList_joinC h hw]
  · by_cases h : pt = []
    · simp [splitList, h]
    · rw [if_neg h, splitList_joinC h hpt]
  · by_cases h : pp = []
    · simp [splitList, h]
    · rw [if_neg h, splitList_joinC h hpp]
  · cases ma with
    | none => simp [decodeRange]
    | some r => exact decodeRange_rangeToString hma.1 hma.2
  · cases np with
    | none => simp [decodeRange]
    | some r => exact decodeRange_rangeToString hnp.1 hnp.2
  · by_cases h : sb = "name"
    · rw [if_neg (by simp [h])]
      simp [jsOrStr, h]
    · rw [if_pos ⟨hsb, h⟩]
      simp [jsOrStr, hsb]
  · by_cases h : 1 < pg
    · rw [if_pos h]
      have hi : intChars pg = natChars pg.toNat := by
        rw [intChars, if_neg (by omega)]
      simp only [decodePage, hi, jsNumber_natChars]
      rw [Int.toNat_of_nonneg (by omega)]
      rw [if_neg (by omega)]
    · rw [if_neg h]
      have : pg = 1 := by omega
      simp [decodePage, this]

/-! ## The name comparator is a total preorder -/

theorem lexLe_total : ∀ a b : List Char, lexLe a b = true ∨ lexLe b a = true := by
  intro a
  induction a with
  | nil => intro b; left; rfl
  | cons x xs ih =>
    intro b
    cases b with
    | nil => right; rfl
    | cons y ys =>
      unfold lexLe
      rcases lt_trichotomy x.toNat y.toNat with h | h | h
      · left; rw [if_pos h]
      · rw [if_neg (by omega), if_neg (by omega), if_neg (by omega), if_neg (by omega)]
        exact ih ys
      · right; rw [if_pos h]

theorem lexLe_trans :
    ∀ a b c : List Char, lexLe a b = true → lexLe b c = true → lexLe a c = true := by
  intro a
  induction a with
  | nil => intro b c _ _; rfl
  | cons x xs ih =>
    intro b c hab hbc
    cases b with
    | nil => exact absurd hab (by simp [lexLe])
    | cons y ys =>
      cases c with
      | nil => exact absurd hbc (by simp [lexLe])
      | cons z zs =>
        unfold lexLe at hab hbc ⊢
        rcases lt_trichotomy x.toNat y.toNat with h1 | h1 | h1
        · rcases lt_trichotomy y.toNat z.toNat with h2 | h2 | h2
          · rw [if_pos (by omega)]
          · rw [if_pos (by omega)]
          · rw [if_neg (by omega), if_pos h2] at hbc
            exact absurd hbc (by simp)
        · rw [if_neg (by omega), if_neg (by omega)] at hab
          rcases lt_trichotomy y.toNat z.toNat with h2 | h2 | h2
          · rw [if_pos (by omega)]
          · rw [if_neg (by omega), if_neg (by omega)] at hbc ⊢
            exact ih ys zs hab hbc
          · rw [if_neg (by omega), if_pos h2] at hbc
            exact absurd hbc (by simp)
        · rw [if_neg (by omega), if_pos h1] at hab
          exact absurd hab (by simp)

theorem lexLe_refl : ∀ a : List Char, lexLe a a = true := by
  intro a
  induction a with
  | nil => rfl
  | cons x xs ih =>
    unfold lexLe
    rw [if_neg (by omega), if_neg (by omega)]
    exact ih

/-! ## Concrete data used by the claim theorems -/

/-- Item A of the §8 end-to-end dataset: `players = [("2-4","default")]`. -/
def gameA : Game := { id := 1, name := "A", players := [("2-4", "default")] }

/-- Item B of the §8 dataset: `players = [("1","default"),("1","best")]`. -/
def gameB : Game := { id := 2, name := "B", players := [("1", "default"), ("1", "best")] }

/-- Item C of the §8 dataset: `players = [("6+","default")]`. -/
def gameC : Game := { id := 3, name := "C", players := [("6+", "default")] }

/-- An item whose only players entry has an empty count spec. -/
def emptySpecGame : Game := { id := 4, name := "E", players := [("", "best")] }

/-- A state whose selected category value contains a comma. -/
def commaState : FilterState := { defaultFilters with selectedCategories := ["a,b"] }

/-- An item carrying the category `"a"`. -/
def commaGame : Game := { id := 5, name := "g", categories := ["a"] }

/-- An item with a real rank of 1 000 000 (≥ the 999 999 missing-rank
substitute of the comparator). -/
def hugeRankGame : Game := { id := 6, name := "x", rank := 1000000 }

/-- An item with no rank (stored as the falsy 0). -/
def noRankGame : Game := { id := 7, name := "y", rank := 0 }

/-- A database row whose `mechanics` sub-field is malformed while
`categories` and `players` are well-formed. -/
def badRow : RawRow :=
  { id := 7, categories := some "[\"a\"]", mechanics := some "oops",
    players := some "[]" }

/-! ## Claim theorems -/

/-- C1, counterexample: with player filter `Main(0)` and an item whose only
pair is `("", "best")`, the claim's condition holds (the tag differs from
"not recommended" and the parsed sentinel `{0,0,false}` contains 0 under the
claim's own containment definition), yet `filterGames` excludes the item —
the `!count` guard of the source skips empty specs. -/
theorem C1_counterexample :
    claimMainPass 0 emptySpecGame = true ∧
    filterGames [emptySpecGame]
      { defaultFilters with selectedPlayerFilter := "0" } = [] := by
  constructor
  · decide
  · decide

/-- C1, amended: the claim holds for every target `n ≥ 1` (equivalently,
once pairs with an empty spec are disregarded): `Any` passes every item;
`Main(n)` passes exactly when some pair has tag ≠ "not recommended" and a
parsed range containing `n`; `Sub(n, tag)` additionally requires the exact
tag; and on the §8 dataset `Sub(1,"best")` selects `{B}`, `Main(6)` selects
`{C}`, `Main(3)` selects `{A}`. -/
theorem C1_amended :
    (∀ g : Game, playersGuard "any" g = true) ∧
    (∀ n : ℕ, 1 ≤ n → ∀ g : Game,
      playersGuard (mainToken n) g = claimMainPass (n : ℤ) g) ∧
    (∀ n : ℕ, 1 ≤ n → ∀ tag : String, tag ≠ "" → (∀ c ∈ tag.data, c ≠ '-') →
      ∀ g : Game, playersGuard (subToken n tag) g = claimSubPass (n : ℤ) tag g) ∧
    filterGames [gameA, gameB, gameC]
      { defaultFilters with selectedPlayerFilter := "1-best" } = [gameB] ∧
    filterGames [gameA, gameB, gameC]
      { defaultFilters with selectedPlayerFilter := "6" } = [gameC] ∧
    filterGames [gameA, gameB, gameC]
      { defaultFilters with selectedPlayerFilter := "3" } = [gameA] := by
  refine ⟨playersGuard_any, ?_, ?_, by decide, by decide, by decide⟩
  · intro n hn g
    exact playersGuard_mainToken hn g
  · intro n hn tag htag hdash g
    exact playersGuard_subToken hn htag hdash g

/-- C1, witness: the amended equivalence applied at `Main(3)` on item A and
`Sub(1, "best")` on item B. -/
theorem C1_witness :
    playersGuard (mainToken 3) gameA = claimMainPass 3 gameA ∧
    playersGuard (subToken 1 "best") gameB = claimSubPass 1 "best" gameB :=
  ⟨C1_amended.2.1 3 (by norm_num) gameA,
   C1_amended.2.2.1 1 (by norm_num) "best" (by decide) (by decide) gameB⟩

/-- C2, counterexample: a reversed range is not mapped to the sentinel —
`parse("5-3")` keeps its bounds `{5,3,false}`, because the source's range
regex has no `N ≤ M` check. -/
theorem C2_counterexample :
    parsePlayerCount "5-3" = ⟨5, some 3, false⟩ ∧
    parsePlayerCount "5-3" ≠ sentinelRange := by
  constructor
  · decide
  · decide

/-- C2, amended: `parse` maps the canonical numeral `"N"` to `{N,N,false}`,
`"N+"` to `{N,∞,true}`, and `"N-M"` to `{N,M,false}` for every `N, M`
(including reversed ranges, which keep their bounds but contain no target);
the empty string and non-numeric garbage give the sentinel `{0,0,false}`,
which matches no player count `≥ 1`; and the §8 examples evaluate as
specified. -/
theorem C2_amended :
    (∀ n : ℕ, parsePlayerCount (mainToken n) = ⟨(n : ℤ), some (n : ℤ), false⟩) ∧
    (∀ n : ℕ, parsePlayerCount ⟨natChars n ++ ['+']⟩ = ⟨(n : ℤ), none, true⟩) ∧
    (∀ a b : ℕ, parsePlayerCount ⟨natChars a ++ '-' :: natChars b⟩ =
      ⟨(a : ℤ), some (b : ℤ), false⟩) ∧
    (∀ a b : ℤ, b < a → ∀ t : ℤ, rangeMatches ⟨a, some b, false⟩ t = false) ∧
    (∀ t : ℤ, 1 ≤ t → rangeMatches sentinelRange t = false) ∧
    parsePlayerCount "" = sentinelRange ∧
    parsePlayerCount "garbage" = sentinelRange ∧
    parsePlayerCount "4" = ⟨4, some 4, false⟩ ∧
    parsePlayerCount "3-5" = ⟨3, some 5, false⟩ ∧
    parsePlayerCount "6+" = ⟨6, none, true⟩ := by
  refine ⟨parsePlayerCount_natChars, parsePlayerCount_open, parsePlayerCount_pair,
    ?_, fun t ht => rangeMatches_sentinel ht,
    by decide, by decide, by decide, by decide, by decide⟩
  intro a b hba t
  rw [show rangeMatches ⟨a, some b, false⟩ t =
      (decide (a ≤ t) && decide (t ≤ b)) from rfl]
  simp only [Bool.and_eq_false_iff, decide_eq_false_iff_not]
  omega

/-- C2, witness: the amended theorem applied at the reversed range `"5-3"`
with target 4, and at the sentinel with target 1. -/
theorem C2_witness :
    rangeMatches ⟨5, some 3, false⟩ 4 = false ∧
    rangeMatches sentinelRange 1 = false :=
  ⟨C2_amended.2.2.2.1 5 3 (by norm_num) 4,
   C2_amended.2.2.2.2.1 1 (by norm_num)⟩

/-- C3, counterexample: the round trip is not behaviorally lossless for
every state — a selected category value containing a comma (`"a,b"`) is
comma-joined on encode and comma-split on decode into `["a","b"]`, which
filters differently: on a one-item dataset with category `"a"`, the original
state selects nothing while the decoded state selects the item. -/
theorem C3_counterexample :
    view [commaGame] (decodeFilters (encodeFilters commaState)) ≠
      view [commaGame] commaState := by
  decide

/-- C3, amended: on regular states — selected facet values nonempty and
comma-free, range bounds non-negative or NaN, nonempty player token and sort
key, page ≥ 1 — decode is a two-sided inverse of encode (so the filtered,
sorted, paginated view agrees on every dataset), and encoding the default
state yields an empty parameter set. -/
theorem C3_amended :
    (∀ f : FilterState, Regular f →
      decodeFilters (encodeFilters f) = f ∧
      ∀ items : List Game,
        view items (decodeFilters (encodeFilters f)) = view items f) ∧
    encodeFilters defaultFilters = [] := by
  refine ⟨fun f hf => ⟨decode_encode hf, fun items => ?_⟩, rfl⟩
  rw [decode_encode hf]

/-- C3, witness: the amended round trip applied to a concrete non-default
regular state. -/
theorem C3_witness :
    decodeFilters (encodeFilters
      { defaultFilters with
          query := "dune", selectedCategories := ["Strategy", "War"],
          selectedPlayerFilter := "2-best",
          selectedMinAge := some ⟨some 8, some 100⟩,
          sortBy := "rank", page := 2 }) =
      { defaultFilters with
          query := "dune", selectedCategories := ["Strategy", "War"],
          selectedPlayerFilter := "2-best",
          selectedMinAge := some ⟨some 8, some 100⟩,
          sortBy := "rank", page := 2 } :=
  (C3_amended.1 _ (by
    refine ⟨?_, ?_, ?_, ?_, ?_, ?_, ?_, ?_, ?_, ?_⟩ <;> trivial)).1

/-- C4, counterexample: the paginator never clamps — with 130 items and
page size 48, requesting page 4 yields the empty slice `[144, 192)`, not
page 3's 34 items as the claim asserts. -/
theorem C4_counterexample :
    paginate (List.range 130) 4 = [] ∧
    (paginate (List.range 130) 3).length = 34 ∧
    paginate (List.range 130) 4 ≠ paginate (List.range 130) 3 := by
  refine ⟨by decide, by decide, by decide⟩

/-- C4, amended: for every page `p ≥ 1` the paginator returns the unclamped
slice `[(p-1)*48, p*48)` — "skip `(p-1)*48`, take 48" — so with 130 items
page 1 has 48 items, page 3 has 34 items, and page 4 is empty rather than
clamped to the last page. -/
theorem C4_amended :
    (∀ (α : Type) (l : List α) (p : ℤ), 1 ≤ p →
      paginate l p = (l.drop ((p - 1) * 48).toNat).take 48) ∧
    (paginate (List.range 130) 1).length = 48 ∧
    (paginate (List.range 130) 3).length = 34 ∧
    paginate (List.range 130) 4 = [] := by
  refine ⟨fun α l p hp => paginate_eq l hp, by decide, by decide, by decide⟩

/-- C4, witness: the amended slice equation applied on a concrete list and
page. -/
theorem C4_witness :
    paginate ([3, 4] : List ℕ) 1 = [3, 4] :=
  (C4_amended.1 ℕ [3, 4] 1 (by norm_num)).trans (by decide)

/-- C5, counterexample: the claimed inequality fails on the player facet's
level-1 sub-values.  For the candidate value `Sub(1, "best")` (radio token
`"1-best"`) the counting loop computes `Number("1-best") = NaN`, so its
cleared count is 0; yet with state `playerFilter = Sub(1, "best")` the fully
filtered result contains item B, which exposes the `(1, "best")`
combination — 1 ≰ 0. -/
theorem C5_counterexample :
    fieldContains (FacetVal.playerSub 1 "best") gameB = true ∧
    (filterGames [gameB]
        { defaultFilters with selectedPlayerFilter := "1-best" }).countP
      (fieldContains (FacetVal.playerSub 1 "best")) = 1 ∧
    facetCount (FacetVal.playerSub 1 "best") [gameB]
        { defaultFilters with selectedPlayerFilter := "1-best" } = 0 ∧
    ¬ ((filterGames [gameB]
          { defaultFilters with selectedPlayerFilter := "1-best" }).countP
        (fieldContains (FacetVal.playerSub 1 "best")) ≤
       facetCount (FacetVal.playerSub 1 "best") [gameB]
          { defaultFilters with selectedPlayerFilter := "1-best" }) := by
  refine ⟨by decide, by decide, by decide, by decide⟩

/-- C5, amended: cross-filter monotonicity holds for every facet value
except the player facet's level-1 sub-values.  In general the cleared count
dominates the fully-filtered tally of the counting test itself; for every
candidate value other than a sub-value the counting test dominates the
claim's G-field containment, giving the claimed inequality; but for a
level-1 sub-value `"n-tag"`, `Number("n-tag")` is `NaN`, the counting test
matches no item, and the computed count is identically 0 — which the
fully-filtered number of items exposing `(n, tag)` can exceed. -/
theorem C5_amended :
    (∀ (v : FacetVal) (items : List Game) (f : FilterState),
      (filterGames items f).countP (countMem v) ≤ facetCount v items f) ∧
    (∀ (v : FacetVal) (items : List Game) (f : FilterState),
      (∀ (n : ℕ) (tag : String), v ≠ FacetVal.playerSub n tag) →
      (filterGames items f).countP (fieldContains v) ≤ facetCount v items f) ∧
    (∀ (n : ℕ) (tag : String) (items : List Game) (f : FilterState),
      facetCount (FacetVal.playerSub n tag) items f = 0) := by
  refine ⟨countMem_facet_mono, ?_, ?_⟩
  · intro v items f hv
    calc (filterGames items f).countP (fieldContains v)
        ≤ (filterGames items f).countP (countMem v) :=
          List.countP_mono_left fun g _ h => fieldContains_imp_countMem v hv g h
      _ ≤ facetCount v items f := countMem_facet_mono v items f
  · intro n tag items f
    unfold facetCount
    refine List.countP_eq_zero.mpr fun g _ => ?_
    simp [countMem, playerCountMem_nan (jsNumber_subToken n tag)]

/-- C5, witness: the amended monotonicity applied at the level-0 value
`Main(1)` on item B with default filters, where both sides evaluate to 1. -/
theorem C5_witness :
    (filterGames [gameB] defaultFilters).countP
        (fieldContains (FacetVal.player 1)) = 1 ∧
    (filterGames [gameB] defaultFilters).countP
        (fieldContains (FacetVal.player 1)) ≤
      facetCount (FacetVal.player 1) [gameB] defaultFilters :=
  ⟨by decide,
   C5_amended.2.1 (FacetVal.player 1) [gameB] defaultFilters
     fun n tag h => FacetVal.noConfusion h⟩

/-- C6, counterexample: a malformed `min_age` parameter does not resolve to
the absent-range default — `Number("abc")` is `NaN`, so decode produces a
present range with NaN bounds, not `null`. -/
theorem C6_counterexample :
    (decodeFilters [("min_age", "abc")]).selectedMinAge =
      some ⟨none, none⟩ ∧
    decodeFilters [("min_age", "abc")] ≠ defaultFilters := by
  refine ⟨by decide, by decide⟩

/-- C6, amended: decoding is total and missing parameters resolve to the
field defaults (an empty parameter list decodes to the default state); a
malformed `min_age` / `numplays` value yields a NaN-bounded present range —
not the absent default — which `filterGames` nevertheless treats as
unconstrained, every NaN comparison being false. -/
theorem C6_amended :
    decodeFilters [] = defaultFilters ∧
    (∀ items : List Game,
      filterGames items
        (decodeFilters [("min_age", "abc"), ("numplays", "xyz")]) =
      filterGames items defaultFilters) := by
  constructor
  · decide
  · intro items
    have hst : decodeFilters [("min_age", "abc"), ("numplays", "xyz")] =
        { defaultFilters with
            selectedMinAge := some ⟨none, none⟩,
            selectedNumPlays := some ⟨none, none⟩ } := by decide
    rw [hst]
    unfold filterGames
    refine List.filter_congr fun g _ => ?_
    unfold gamePasses
    simp [defaultFilters, jsLtBound, jsGtBound]

/-! ## Comparator facts for the five sort keys -/

theorem sortLe_name_trans : ∀ a b c : Game,
    sortLe "name" a b = true → sortLe "name" b c = true →
    sortLe "name" a c = true :=
  fun _ _ _ hab hbc => lexLe_trans _ _ _ hab hbc

theorem sortLe_name_total : ∀ a b : Game,
    sortLe "name" a b = true ∨ sortLe "name" b a = true :=
  fun _ _ => lexLe_total _ _

theorem sortLe_rank_trans : ∀ a b c : Game,
    sortLe "rank" a b = true → sortLe "rank" b c = true →
    sortLe "rank" a c = true :=
  fun _ _ _ hab hbc =>
    decide_eq_true (le_trans (of_decide_eq_true hab) (of_decide_eq_true hbc))

theorem sortLe_rank_total : ∀ a b : Game,
    sortLe "rank" a b = true ∨ sortLe "rank" b a = true :=
  fun a b => (le_total (rankKey a) (rankKey b)).imp decide_eq_true decide_eq_true

theorem sortLe_rating_trans : ∀ a b c : Game,
    sortLe "rating" a b = true → sortLe "rating" b c = true →
    sortLe "rating" a c = true :=
  fun _ _ _ hab hbc =>
    decide_eq_true (le_trans (of_decide_eq_true hbc) (of_decide_eq_true hab))

theorem sortLe_rating_total : ∀ a b : Game,
    sortLe "rating" a b = true ∨ sortLe "rating" b a = true :=
  fun a b => (le_total b.rating a.rating).imp decide_eq_true decide_eq_true

theorem sortLe_numowned_trans : ∀ a b c : Game,
    sortLe "numowned" a b = true → sortLe "numowned" b c = true →
    sortLe "numowned" a c = true :=
  fun _ _ _ hab hbc =>
    decide_eq_true (le_trans (of_decide_eq_true hbc) (of_decide_eq_true hab))

theorem sortLe_numowned_total : ∀ a b : Game,
    sortLe "numowned" a b = true ∨ sortLe "numowned" b a = true :=
  fun a b => (le_total b.numowned a.numowned).imp decide_eq_true decide_eq_true

theorem sortLe_numrated_trans : ∀ a b c : Game,
    sortLe "numrated" a b = true → sortLe "numrated" b c = true →
    sortLe "numrated" a c = true :=
  fun _ _ _ hab hbc =>
    decide_eq_true (le_trans (of_decide_eq_true hbc) (of_decide_eq_true hab))

theorem sortLe_numrated_total : ∀ a b : Game,
    sortLe "numrated" a b = true ∨ sortLe "numrated" b a = true :=
  fun a b => (le_total b.usersrated a.usersrated).imp decide_eq_true decide_eq_true

/-- C7, counterexample: the comparator substitutes `999999` for a missing
rank, which is not `+∞`: an item with real rank 1 000 000 sorts after a
rank-less item, whereas the claim (missing rank = `+∞`, sorts last) demands
the opposite order. -/
theorem C7_counterexample :
    sortGames [hugeRankGame, noRankGame] "rank" = [noRankGame, hugeRankGame] ∧
    sortGames [hugeRankGame, noRankGame] "rank" ≠ [hugeRankGame, noRankGame] := by
  refine ⟨by decide, by decide⟩

/-- C7, amended: sorting returns a stable permutation: `name` is ordered
case-folded lexicographically, `rank` ascending with a missing rank treated
as `999999` (not `+∞` — ranks of at least 999999 would sort at or before a
missing one), `rating` / `numowned` / `numrated` descending with the missing
value 0 last, and for each key, items with equal sort keys keep their input
order. -/
theorem C7_amended : ∀ l : List Game,
    (∀ k : String, List.Perm (sortGames l k) l) ∧
    (sortGames l "name").Pairwise
      (fun a b => lexLe (toLowerChars a.name) (toLowerChars b.name) = true) ∧
    (sortGames l "rank").Pairwise (fun a b => rankKey a ≤ rankKey b) ∧
    (sortGames l "rating").Pairwise (fun a b => b.rating ≤ a.rating) ∧
    (sortGames l "numowned").Pairwise (fun a b => b.numowned ≤ a.numowned) ∧
    (sortGames l "numrated").Pairwise (fun a b => b.usersrated ≤ a.usersrated) ∧
    (∀ s : List Char,
      (sortGames l "name").filter (fun g => toLowerChars g.name = s) =
        l.filter (fun g => toLowerChars g.name = s)) ∧
    (∀ r : ℕ,
      (sortGames l "rank").filter (fun g => rankKey g = r) =
        l.filter (fun g => rankKey g = r)) ∧
    (∀ r : ℚ,
      (sortGames l "rating").filter (fun g => g.rating = r) =
        l.filter (fun g => g.rating = r)) ∧
    (∀ r : ℕ,
      (sortGames l "numowned").filter (fun g => g.numowned = r) =
        l.filter (fun g => g.numowned = r)) ∧
    (∀ r : ℕ,
      (sortGames l "numrated").filter (fun g => g.usersrated = r) =
        l.filter (fun g => g.usersrated = r)) := by
  intro l
  refine ⟨fun k => isort_perm _ l,
    isort_sorted sortLe_name_trans sortLe_name_total l,
    (isort_sorted sortLe_rank_trans sortLe_rank_total l).imp
      fun h => of_decide_eq_true h,
    (isort_sorted sortLe_rating_trans sortLe_rating_total l).imp
      fun h => of_decide_eq_true h,
    (isort_sorted sortLe_numowned_trans sortLe_numowned_total l).imp
      fun h => of_decide_eq_true h,
    (isort_sorted sortLe_numrated_trans sortLe_numrated_total l).imp
      fun h => of_decide_eq_true h,
    ?_, ?_, ?_, ?_, ?_⟩
  · intro s
    refine isort_filter_stable (fun a b ha hb => ?_) l
    have h1 : toLowerChars a.name = s := of_decide_eq_true ha
    have h2 : toLowerChars b.name = s := of_decide_eq_true hb
    show lexLe (toLowerChars a.name) (toLowerChars b.name) = true
    rw [h1, h2]
    exact lexLe_refl s
  · intro r
    refine isort_filter_stable (fun a b ha hb => ?_) l
    have h1 : rankKey a = r := of_decide_eq_true ha
    have h2 : rankKey b = r := of_decide_eq_true hb
    exact decide_eq_true (le_of_eq (h1.trans h2.symm))
  · intro r
    refine isort_filter_stable (fun a b ha hb => ?_) l
    have h1 : a.rating = r := of_decide_eq_true ha
    have h2 : b.rating = r := of_decide_eq_true hb
    exact decide_eq_true (le_of_eq (h2.trans h1.symm))
  · intro r
    refine isort_filter_stable (fun a b ha hb => ?_) l
    have h1 : a.numowned = r := of_decide_eq_true ha
    have h2 : b.numowned = r := of_decide_eq_true hb
    exact decide_eq_true (le_of_eq (h2.trans h1.symm))
  · intro r
    refine isort_filter_stable (fun a b ha hb => ?_) l
    have h1 : a.usersrated = r := of_decide_eq_true ha
    have h2 : b.usersrated = r := of_decide_eq_true hb
    exact decide_eq_true (le_of_eq (h2.trans h1.symm))

/-- C8, counterexample: a parse failure on one sub-field does not default
that field to empty — the `try` block is aborted by the throw, leaving the
failing field (here `mechanics`) and every later field with its raw column
value; the item is still retained and the warning flag fires. -/
theorem C8_counterexample :
    loadAllGames [badRow] =
      [⟨7, .parsed ["a"], .raw (some "oops"), .raw (some "[]"),
        .raw none, .raw none, .raw none⟩] ∧
    (loadRow badRow).1.mechanics ≠ FieldVal.parsed [] ∧
    (loadRow badRow).2 = true := by
  refine ⟨by decide, by decide, by decide⟩

/-- C8, amended: every row is retained and the load is never aborted (the
output has one item per row, appending rows appends loaded items); the
warning is logged exactly when some sub-field fails to parse; but a failing
sub-field is not defaulted to empty — it and all later sub-fields keep
their raw column values, as the concrete `badRow` shows. -/
theorem C8_amended :
    (∀ rows : List RawRow, (loadAllGames rows).length = rows.length) ∧
    (∀ (rows : List RawRow) (row : RawRow),
      loadAllGames (rows ++ [row]) = loadAllGames rows ++ [(loadRow row).1]) ∧
    (∀ row : RawRow,
      (loadRow row).2 = true ↔
        (parseField row.categories = none ∨ parseField row.mechanics = none ∨
         parseField row.players = none ∨ parseField row.tags = none ∨
         parseField row.previous_players = none ∨
         parseField row.expansions = none)) ∧
    loadRow badRow =
      (⟨7, .parsed ["a"], .raw (some "oops"), .raw (some "[]"),
        .raw none, .raw none, .raw none⟩, true) := by
  refine ⟨fun rows => by simp [loadAllGames],
    fun rows row => by simp [loadAllGames], ?_, by decide⟩
  intro row
  unfold loadRow
  cases h1 : parseField row.categories <;>
    cases h2 : parseField row.mechanics <;>
    cases h3 : parseField row.players <;>
    cases h4 : parseField row.tags <;>
    cases h5 : parseField row.previous_players <;>
    cases h6 : parseField row.expansions <;>
    simp [h1, h2, h3, h4, h5, h6]

/-- C9: the filter is a pure idempotent restriction — filtering a filtered
list with the same state is the identity, and the result is an
order-preserving subsequence of the input (the model is pure, so the input
list is never mutated). -/
theorem C9_filter_idempotent :
    ∀ (items : List Game) (f : FilterState),
      filterGames (filterGames items f) f = filterGames items f ∧
      List.Sublist (filterGames items f) items := by
  intro items f
  constructor
  · exact List.filter_eq_self.mpr fun a ha => (List.mem_filter.mp ha).2
  · exact List.filter_sublist items

/-- C10: a player-filter token that is neither `"any"` nor headed by a
numeric first dash-segment (so `Number(...)` is `NaN`) silently disables
the player constraint: filtering behaves exactly as with the filter `Any`,
and no item is excluded on account of the players group. -/
theorem C10_nan_token_skipped :
    ∀ (token : String) (f : FilterState) (items : List Game),
      jsNumber ((jsSplit '-' token.data).headD []) = none →
      filterGames items { f with selectedPlayerFilter := token } =
        filterGames items { f with selectedPlayerFilter := "any" } := by
  intro token f items hnum
  unfold filterGames
  refine List.filter_congr fun g _ => ?_
  unfold gamePasses
  simp [playersGuard_nan hnum, playersGuard_any]

/-- C10, witness: the skip applied to the non-numeric token `"abc"` on the
dataset item A with otherwise default filters. -/
theorem C10_witness :
    jsNumber ((jsSplit '-' ("abc" : String).data).headD []) = none ∧
    filterGames [gameA] { defaultFilters with selectedPlayerFilter := "abc" } =
      filterGames [gameA] { defaultFilters with selectedPlayerFilter := "any" } :=
  ⟨by decide, C10_nan_token_skipped "abc" defaultFilters [gameA] (by decide)⟩

end MyBGG
